import Mathlib

/-!
Verification of the crossfont FreeType backend (`src/ft/mod.rs`, `src/lib.rs`).

The Rust source is shallowly embedded: machine integers are modelled as
`Nat`/`Int` with explicit wrapping where the source can wrap, `f32`/`f64`
arithmetic on sizes and scale factors is modelled over `ℚ` (the values
involved are small rationals and the algorithms under scrutiny are
well-defined over the exact rationals), `Vec<u8>` buffers are `List ℕ`
whose entries are byte values, fallible Rust functions return
`Except`/`Option` (with `Option.none` of the outer layer standing for a
panic), and the mutable rasterizer state is passed explicitly.
External FreeType / Fontconfig behaviour (glyph indices, charsets,
pattern hashes, face loading) is modelled as a deterministic environment
record, mirroring how `ft/mod.rs` calls into those libraries.
-/

namespace Crossfont

/-! ## Numeric helpers: Rust casts and rounding over the exact rationals -/

/-- Rust `f64::round`: round half away from zero. -/
def rustRound (q : ℚ) : ℤ :=
  if 0 ≤ q then (q + 1 / 2).floor else -((1 / 2 - q).floor)

/-- Rust float-to-integer `as` casts truncate toward zero. -/
def rustTrunc (q : ℚ) : ℤ :=
  if 0 ≤ q then q.floor else -((-q).floor)

/-- Rust `f64 as usize`: truncate toward zero, saturating at 0 from below
(the saturation at `usize::MAX` is immaterial for glyph-sized values and
is not modelled). -/
def usizeOfF64 (q : ℚ) : ℕ := (rustTrunc q).toNat

/-- Rust `.round() as usize` on a nonnegative-or-small value. -/
def roundUsize (q : ℚ) : ℕ := (rustRound q).toNat

/-- Rust `f64 as i32`: truncate toward zero, saturating at the `i32` range. -/
def i32OfF64 (q : ℚ) : ℤ := max (-(2 ^ 31)) (min (2 ^ 31 - 1) (rustTrunc q))

/-- Rust `i32 as usize` (two's-complement sign extension then reinterpret). -/
def usizeOfI32 (z : ℤ) : ℕ := (z % 2 ^ 64).toNat

/-- Rust `usize as i32`: keep the low 32 bits, reinterpreted as two's complement. -/
def i32OfUsize (n : ℕ) : ℤ :=
  if n % 2 ^ 32 < 2 ^ 31 then ((n % 2 ^ 32 : ℕ) : ℤ) else ((n % 2 ^ 32 : ℕ) : ℤ) - 2 ^ 32

/-- `u32::rotate_left(1)` on a hash value held as a natural below `2^32`. -/
def rotateLeft1U32 (h : ℕ) : ℕ :=
  (h % 2 ^ 32 * 2) % 2 ^ 32 ||| h % 2 ^ 32 / 2 ^ 31

/-! ## Shared types from `src/lib.rs` -/

/-- FontKey from `src/lib.rs`: an opaque `u32` token. -/
structure FontKey where
  token : ℕ
deriving DecidableEq, Repr

/-- FontKey::next (`src/lib.rs` lines 88-97): the n-th call (0-indexed)
bumps a process-wide `AtomicUsize` counter and stores it `as _` into the
`u32` token, truncating.  `fontKey_next_token n` is the token returned by
the n-th call. -/
def fontKey_next_token (n : ℕ) : ℕ := n % 2 ^ 64 % 2 ^ 32

/-- Size from `src/lib.rs`: a point size held as an `i16` in half-points. -/
structure Size where
  halfPoints : ℤ
deriving DecidableEq, Repr

/-- Size::as_f32_pts. -/
def Size.as_f32_pts (s : Size) : ℚ := s.halfPoints / 2

/-- Slant from `src/lib.rs`. -/
inductive Slant where
  | normal
  | italic
  | oblique
deriving DecidableEq, Repr

/-- Weight from `src/lib.rs`. -/
inductive Weight where
  | normal
  | bold
deriving DecidableEq, Repr

/-- Style from `src/lib.rs`. -/
inductive Style where
  | specific (style : String)
  | description (slant : Slant) (weight : Weight)
deriving DecidableEq, Repr

/-- FontDesc from `src/lib.rs`. -/
structure FontDesc where
  name : String
  style : Style
deriving DecidableEq, Repr

/-- GlyphKey from `src/lib.rs`. -/
structure GlyphKey where
  character : Char
  font_key : FontKey
  size : Size
deriving DecidableEq, Repr

/-- BitmapBuffer from `src/lib.rs`: an RGB alpha mask or RGBA pixels. -/
inductive BitmapBuffer where
  | rgb (bytes : List ℕ)
  | rgba (bytes : List ℕ)
deriving DecidableEq, Repr

/-- RasterizedGlyph from `src/lib.rs` (with the `advance` field used by
`src/ft/mod.rs`). -/
structure RasterizedGlyph where
  character : Char
  width : ℤ
  height : ℤ
  top : ℤ
  left : ℤ
  advance : ℤ × ℤ
  buffer : BitmapBuffer
deriving DecidableEq, Repr

/-- Subpixel geometry `fc::Rgba` from `src/ft/fc/mod.rs`. -/
inductive Rgba where
  | unknown
  | rgb
  | bgr
  | vrgb
  | vbgr
  | none
deriving DecidableEq, Repr

/-! ## Pixel normalizer: `FreeTypeRasterizer::normalize_buffer`
(`src/ft/mod.rs` lines 485-585)

The FreeType `Bitmap` is modelled by its fields read in the source:
`rows`, `width`, `pitch` (already taken as `unsigned_abs`), `pixel_mode`
and the raw byte buffer.  Out-of-bounds reads (which would panic in the
source and cannot occur for well-formed FreeType bitmaps) are modelled as
reading 0. -/

/-- The five pixel modes handled by `normalize_buffer`; any other mode
panics in the source (`unhandled pixel mode`) and is outside the model. -/
inductive PixelMode where
  | mono
  | gray
  | lcd
  | lcdV
  | bgra
deriving DecidableEq, Repr

/-- A FreeType bitmap as read by `normalize_buffer`. -/
structure FtBitmap where
  rows : ℕ
  width : ℕ
  pitch : ℕ
  pixel_mode : PixelMode
  buffer : List ℕ
deriving DecidableEq, Repr

/-- The inner `unpack_byte` helper of the `Mono` arm: emits `count` pixels
from `byte`, starting at bit position `bit` (the source starts at 7 and
decrements), each pixel being the bit value scaled to 0/255 and pushed
three times. -/
def unpack_byte (byte : ℕ) : ℕ → ℕ → List ℕ
  | 0, _ => []
  | count + 1, bit =>
    let value := ((byte >>> bit) &&& 1) * 255
    value :: value :: value :: unpack_byte byte count (bit - 1)

/-- One row of the `Mono` arm: the `while columns != 0` loop, consuming
`min 8 columns` bits from each successive byte of the row. -/
def mono_row (buf : List ℕ) (offset : ℕ) (columns byteIdx : ℕ) : List ℕ :=
  if columns = 0 then []
  else
    let bits := min 8 columns
    unpack_byte (buf.getD (offset + byteIdx) 0) bits 7
      ++ mono_row buf offset (columns - bits) (byteIdx + 1)
termination_by columns
decreasing_by omega

/-- FreeTypeRasterizer::normalize_buffer: convert a native bitmap to a
packed canonical buffer.  Returns `(rows, pixel width, buffer)` as the
source's `Ok` payload (the `FtResult` error case can only arise from an
invalid FFI enum value, outside this model). -/
def normalize_buffer (bitmap : FtBitmap) (rgba : Rgba) : ℕ × ℕ × BitmapBuffer :=
  let buf := bitmap.buffer
  let pitch := bitmap.pitch
  match bitmap.pixel_mode with
  | .lcd =>
    let packed := (List.range bitmap.rows).flatMap fun i =>
      let start := i * pitch
      match rgba with
      | .bgr =>
        -- step_by(3) over `start..start + width` visits start + 3*t.
        (List.range ((bitmap.width + 2) / 3)).flatMap fun t =>
          let j := start + 3 * t
          [buf.getD (j + 2) 0, buf.getD (j + 1) 0, buf.getD j 0]
      | _ => (List.range' start bitmap.width).map fun j => buf.getD j 0
    (bitmap.rows, bitmap.width / 3, .rgb packed)
  | .lcdV =>
    let packed := (List.range (bitmap.rows / 3)).flatMap fun i =>
      (List.range bitmap.width).flatMap fun j =>
        (List.range 3).map fun k =>
          let k' := match rgba with
            | .vbgr => 2 - k
            | _ => k
          buf.getD ((i * 3 + k') * pitch + j) 0
    (bitmap.rows / 3, bitmap.width, .rgb packed)
  | .mono =>
    let packed := (List.range bitmap.rows).flatMap fun i =>
      mono_row buf (i * pitch) bitmap.width 0
    (bitmap.rows, bitmap.width, .rgb packed)
  | .gray =>
    let packed := (List.range bitmap.rows).flatMap fun i =>
      let start := i * pitch
      (List.range' start bitmap.width).flatMap fun j =>
        let byte := buf.getD j 0
        [byte, byte, byte]
    (bitmap.rows, bitmap.width, .rgb packed)
  | .bgra =>
    -- `while i < buf_size` stepping 4: pixel p reads bytes 4p..4p+3.
    let packed := (List.range (bitmap.rows * bitmap.width)).flatMap fun p =>
      [buf.getD (4 * p + 2) 0, buf.getD (4 * p + 1) 0, buf.getD (4 * p) 0,
        buf.getD (4 * p + 3) 0]
    (bitmap.rows, bitmap.width, .rgba packed)

/-! ## Downsampler: `downsample_bitmap` (`src/ft/mod.rs` lines 592-657) -/

/-- The accumulation loop over one source rectangle: returns the running
`(r, g, b, a, pixels_picked)` exactly as the two nested `for` loops of the
source compute them.  The accumulators are `u32` in the source
(`let (mut r, mut g, mut b, mut a) = (0u32, ...)`), so every addition is
taken modulo `2^32`, the release-mode wrapping semantics. -/
def source_rect_fold (bitmap_buffer : List ℕ) (bitmap_width : ℕ)
    (line_start line_end column_start column_end : ℕ) : ℕ × ℕ × ℕ × ℕ × ℕ :=
  (List.range' line_start (line_end - line_start)).foldl
    (fun acc source_line =>
      let source_pixel_index := source_line * bitmap_width
      (List.range' column_start (column_end - column_start)).foldl
        (fun acc2 source_column =>
          let offset := (source_pixel_index + source_column) * 4
          ⟨(acc2.1 + bitmap_buffer.getD offset 0) % 2 ^ 32,
            (acc2.2.1 + bitmap_buffer.getD (offset + 1) 0) % 2 ^ 32,
            (acc2.2.2.1 + bitmap_buffer.getD (offset + 2) 0) % 2 ^ 32,
            (acc2.2.2.2.1 + bitmap_buffer.getD (offset + 3) 0) % 2 ^ 32,
            (acc2.2.2.2.2 + 1) % 2 ^ 32⟩)
        acc)
    ⟨0, 0, 0, 0, 0⟩

/-- downsample_bitmap: downscale a colored (Rgba) glyph by `fixup_factor`
when the factor is strictly below 1; any other buffer kind or factor
returns the glyph unchanged.  (`fixup_factor.partial_cmp(&1.0)` is always
`Some` over `ℚ`; the `NaN` case cannot be expressed here.)  The `as u8`
cast of each averaged channel wraps modulo 256. -/
def downsample_bitmap (bitmap_glyph : RasterizedGlyph) (fixup_factor : ℚ) :
    RasterizedGlyph :=
  match bitmap_glyph.buffer with
  | .rgba bitmap_buffer =>
    if fixup_factor < 1 then
      let bitmap_width := usizeOfI32 bitmap_glyph.width
      let bitmap_height := usizeOfI32 bitmap_glyph.height
      let target_width := usizeOfF64 ((bitmap_width : ℚ) * fixup_factor)
      let target_height := usizeOfF64 ((bitmap_height : ℚ) * fixup_factor)
      let downsampling_step : ℚ := 1 / fixup_factor
      let downsampled_buffer := (List.range target_height).flatMap fun line_index =>
        let source_line_start := roundUsize ((line_index : ℚ) * downsampling_step)
        let source_line_end := roundUsize (((line_index : ℚ) + 1) * downsampling_step)
        (List.range target_width).flatMap fun column_index =>
          let source_column_start := roundUsize ((column_index : ℚ) * downsampling_step)
          let source_column_end :=
            roundUsize (((column_index : ℚ) + 1) * downsampling_step)
          let acc := source_rect_fold bitmap_buffer bitmap_width source_line_start
            source_line_end source_column_start source_column_end
          let pixels_picked := acc.2.2.2.2
          [acc.1 / pixels_picked % 256, acc.2.1 / pixels_picked % 256,
            acc.2.2.1 / pixels_picked % 256, acc.2.2.2.1 / pixels_picked % 256]
      { bitmap_glyph with
        buffer := .rgba downsampled_buffer
        top := i32OfF64 ((bitmap_glyph.top : ℚ) * fixup_factor)
        left := i32OfF64 ((bitmap_glyph.left : ℚ) * fixup_factor)
        width := i32OfUsize target_width
        height := i32OfUsize target_height }
    else bitmap_glyph
  | _ => bitmap_glyph

/-- The claim-side description of one output channel (C2): the sum of
channel `ch` over the source rectangle
`[ls, le) x [cs, ce)` of a `w`-pixel-wide Rgba buffer. -/
def box_channel_sum (buf : List ℕ) (w ls le cs ce ch : ℕ) : ℕ :=
  ((List.range' ls (le - ls)).map fun sl =>
    (((List.range' cs (ce - cs)).map fun sc => buf.getD ((sl * w + sc) * 4 + ch) 0)).sum).sum

/-! ## Fallback resolver state model (`src/ft/mod.rs`)

`HashMap` fields are modelled as association lists with insert-at-front
(so a later insert shadows an earlier binding, like `HashMap::insert`). -/

/-- Association-list lookup, modelling `HashMap::get`. -/
def alook {κ α : Type} [DecidableEq κ] : List (κ × α) → κ → Option α
  | [], _ => Option.none
  | (k, v) :: t, q => if q = k then some v else alook t q

/-- Association-list insert, modelling `HashMap::insert`. -/
def alinsert {κ α : Type} (l : List (κ × α)) (k : κ) (v : α) : List (κ × α) :=
  (k, v) :: l

/-- The FreeType face handle (`FtFace`), reduced to the operations
`ft/mod.rs` performs on it for glyph resolution and kerning:
`get_char_index` (0 is the missing-glyph index), `FT_HAS_KERNING`, and
`FT_Get_Kerning` returning a 26.6 fixed-point vector. -/
structure FtFace where
  get_char_index : Char → ℕ
  has_kerning : Bool
  get_kerning : ℕ → ℕ → ℤ × ℤ

/-- fc::CharSet, reduced to `has_char`. -/
structure CharSet where
  has_char : Char → Bool

/-- CharSet::merge produces the union (the source mutates the receiver). -/
def CharSet.merge (a b : CharSet) : CharSet :=
  ⟨fun c => a.has_char c || b.has_char c⟩

/-- A rendered fontconfig pattern, reduced to the queries `ft/mod.rs`
makes of it: its `PatternHash` (a `u32` value), `ft_face_location(0)`
(file path + index, modelled as an opaque id), and `get_charset`. -/
structure Pattern where
  hash : ℕ
  ft_face_location : Option ℕ
  charset : Option CharSet

/-- FontKey::from_pattern_hashes (`src/ft/mod.rs` lines 43-48):
`lhs.0.rotate_left(1) ^ rhs.0` in `u32` arithmetic. -/
def FontKey.from_pattern_hashes (lhs rhs : ℕ) : FontKey :=
  ⟨rotateLeft1U32 lhs ^^^ rhs % 2 ^ 32⟩

/-- FallbackFont from `src/ft/mod.rs`. -/
structure FallbackFont where
  pattern : Pattern
  key : FontKey

/-- FallbackList from `src/ft/mod.rs`. -/
structure FallbackList where
  list : List FallbackFont
  coverage : CharSet

/-- FaceLoadingProperties, reduced to the `ft_face` field; the rendering
properties (load flags, render mode, LCD filter, matrix, ...) are not
consulted by the operations under verification. -/
structure FaceLoadingProperties where
  ft_face : FtFace

/-- FreeTypeLoader: the face caches. -/
structure FreeTypeLoader where
  faces : List (FontKey × FaceLoadingProperties)
  ft_faces : List (ℕ × FtFace)

/-- FreeTypeRasterizer state.  `device_pixel_scale` is the source's
`device_pixel_ratio` field; `creation_timestamp` holds an absolute time
in seconds (an `Instant` in the source, compared against via `elapsed`). -/
structure FreeTypeRasterizer where
  loader : FreeTypeLoader
  fallback_lists : List (FontKey × FallbackList)
  device_pixel_scale : ℚ
  creation_timestamp : Option ℚ

/-- Rasterizer errors from `src/lib.rs` (payloads dropped). -/
inductive Error where
  | font_not_found
  | metrics_not_found
  | missing_glyph
  | unknown_font_key
  | platform_error
deriving DecidableEq, Repr

/-- The deterministic external environment: fontconfig pattern building,
substitution, hashing, sorting and rendering, and FreeType face loading
(`Library::new_face` plus strike-size selection).  `PB` is the type of
request patterns under construction (`fc::Pattern` builders); rendered
patterns are the `Pattern` record above.  All of these live behind FFI
wrappers (`src/ft/fc/`), and are modelled as pure functions of their
arguments, per the spec's description of matching as a deterministic
query of the current configuration. -/
structure FcEnv (PB : Type) where
  new_pattern : PB
  add_family : PB → String → PB
  add_pixelsize : PB → ℚ → PB
  set_weight : PB → Weight → PB
  set_slant : PB → Slant → PB
  add_style : PB → String → PB
  pattern_hash : PB → ℕ
  config_substitute : PB → PB
  default_substitute : PB → PB
  font_sort : PB → Option (List Pattern)
  render_prepare : PB → Pattern → Pattern
  load_face : ℕ → Except Error FtFace

/-- FreeTypeLoader::face_from_pattern (`src/ft/mod.rs` lines 701-761):
load (or find cached) the native face behind `pattern` and register it
under `font_key`; `Ok(None)` when the pattern carries no face location. -/
def face_from_pattern {PB : Type} (env : FcEnv PB) (loader : FreeTypeLoader)
    (pattern : Pattern) (font_key : FontKey) :
    Except Error (Option FontKey × FreeTypeLoader) :=
  match pattern.ft_face_location with
  | some ft_face_location =>
    if (alook loader.faces font_key).isSome then .ok (some font_key, loader)
    else
      match alook loader.ft_faces ft_face_location with
      | some ft_face =>
        .ok (some font_key,
          { loader with faces := alinsert loader.faces font_key ⟨ft_face⟩ })
      | Option.none =>
        match env.load_face ft_face_location with
        | .error e => .error e
        | .ok ft_face =>
          let loader :=
            { loader with ft_faces := alinsert loader.ft_faces ft_face_location ft_face }
          .ok (some font_key,
            { loader with faces := alinsert loader.faces font_key ⟨ft_face⟩ })
  | Option.none => .ok (Option.none, loader)

/-- The `for fallback_font in &fallback_list.list` loop of
`load_face_with_glyph` (`src/ft/mod.rs` lines 452-476).  The outer
`Option` is `none` on panic (unreachable in this loop); the `Except`
carries the `?`-propagated loading error. -/
def load_face_with_glyph_walk {PB : Type} (env : FcEnv PB) (glyph : GlyphKey) :
    List FallbackFont → FreeTypeRasterizer →
    Option (Except Error FontKey × FreeTypeRasterizer)
  | [], s => some (.ok glyph.font_key, s)
  | fallback_font :: rest, s =>
    let font_key := fallback_font.key
    match alook s.loader.faces font_key with
    | some face =>
      if face.ft_face.get_char_index glyph.character ≠ 0 then some (.ok font_key, s)
      else load_face_with_glyph_walk env glyph rest s
    | Option.none =>
      if !(match fallback_font.pattern.charset with
          | some cs => cs.has_char glyph.character
          | Option.none => false) then
        load_face_with_glyph_walk env glyph rest s
      else
        match face_from_pattern env s.loader fallback_font.pattern font_key with
        | .error e => some (.error e, s)
        | .ok (some key, loader) => some (.ok key, { s with loader := loader })
        | .ok (Option.none, loader) =>
          load_face_with_glyph_walk env glyph rest { s with loader := loader }

/-- FreeTypeRasterizer::load_face_with_glyph (`src/ft/mod.rs` lines
444-480).  The outer `Option` is `none` exactly when the source would
panic: `self.fallback_lists.get(&glyph.font_key).unwrap()` on a font key
with no fallback list. -/
def load_face_with_glyph {PB : Type} (env : FcEnv PB) (s : FreeTypeRasterizer)
    (glyph : GlyphKey) : Option (Except Error FontKey × FreeTypeRasterizer) :=
  match alook s.fallback_lists glyph.font_key with
  | Option.none => Option.none
  | some fallback_list =>
    if !fallback_list.coverage.has_char glyph.character then some (.ok glyph.font_key, s)
    else load_face_with_glyph_walk env glyph fallback_list.list s

/-- FreeTypeRasterizer::face_for_glyph (`src/ft/mod.rs` lines 432-442).
`none` models a panic escaping from `load_face_with_glyph`; the source's
`.unwrap_or(glyph_key.font_key)` maps a loading `Err` to the primary key. -/
def face_for_glyph {PB : Type} (env : FcEnv PB) (s : FreeTypeRasterizer)
    (glyph_key : GlyphKey) : Option (FontKey × FreeTypeRasterizer) :=
  let fallthrough :=
    match load_face_with_glyph env s glyph_key with
    | Option.none => Option.none
    | some (.ok key, s') => some (key, s')
    | some (.error _, s') => some (glyph_key.font_key, s')
  match alook s.loader.faces glyph_key.font_key with
  | some face =>
    if face.ft_face.get_char_index glyph_key.character ≠ 0 then
      some (glyph_key.font_key, s)
    else fallthrough
  | Option.none => fallthrough

/-- Convert a 26.6 fixed-point value to a fractional number
(`from_freetype_26_6`). -/
def from_freetype_26_6 (f : ℤ) : ℚ := (f : ℚ) / 64

/-- FreeTypeRasterizer::kerning (`src/ft/mod.rs` lines 291-310).  `none`
models a panic: either one escaping `face_for_glyph`, or the
`self.loader.faces[&font_key]` index on a missing key. -/
def kerning {PB : Type} (env : FcEnv PB) (s : FreeTypeRasterizer)
    (left right : GlyphKey) : Option ((ℚ × ℚ) × FreeTypeRasterizer) :=
  match face_for_glyph env s left with
  | Option.none => Option.none
  | some (font_key, s') =>
    match alook s'.loader.faces font_key with
    | Option.none => Option.none
    | some props =>
      let ft_face := props.ft_face
      if !ft_face.has_kerning then some ((0, 0), s')
      else
        let l := ft_face.get_char_index left.character
        let r := ft_face.get_char_index right.character
        let k := ft_face.get_kerning l r
        some ((from_freetype_26_6 k.1, from_freetype_26_6 k.2), s')

/-- FreeTypeRasterizer::get_face (`src/ft/mod.rs` lines 343-418). -/
def get_face {PB : Type} (env : FcEnv PB) (s : FreeTypeRasterizer)
    (desc : FontDesc) (size : Size) :
    Except Error (FontKey × FreeTypeRasterizer) :=
  let sizeq : ℚ := size.as_f32_pts * s.device_pixel_scale * 96 / 72
  let pattern := env.add_pixelsize (env.add_family env.new_pattern desc.name) sizeq
  let pattern :=
    match desc.style with
    | .description slant weight => env.set_slant (env.set_weight pattern weight) slant
    | .specific style => env.add_style pattern style
  let hash := env.pattern_hash pattern
  let pattern := env.default_substitute (env.config_substitute pattern)
  match env.font_sort pattern with
  | Option.none => .error .font_not_found
  | some matched_fonts =>
    match matched_fonts with
    | [] => .error .font_not_found
    | primary_font :: rest =>
      let primary_font := env.render_prepare pattern primary_font
      let primary_font_key := FontKey.from_pattern_hashes hash primary_font.hash
      if (alook s.fallback_lists primary_font_key).isSome then .ok (primary_font_key, s)
      else
        let loaded : Except Error FreeTypeLoader :=
          if (alook s.loader.faces primary_font_key).isSome then .ok s.loader
          else
            match face_from_pattern env s.loader primary_font primary_font_key with
            | .error e => .error e
            | .ok (Option.none, _) => .error .font_not_found
            | .ok (some _, loader) => .ok loader
        match loaded with
        | .error e => .error e
        | .ok loader =>
          let empty_charset : CharSet := ⟨fun _ => false⟩
          let prepared := rest.map fun fallback_font =>
            let charset := fallback_font.charset.getD empty_charset
            let fallback_font := env.render_prepare pattern fallback_font
            let fallback_font_key := FontKey.from_pattern_hashes hash fallback_font.hash
            (FallbackFont.mk fallback_font fallback_font_key, charset)
          let coverage := prepared.foldl (fun acc p => acc.merge p.2) ⟨fun _ => false⟩
          let list := prepared.map Prod.fst
          .ok (primary_font_key,
            { s with
              loader := loader
              fallback_lists := alinsert s.fallback_lists primary_font_key ⟨list, coverage⟩ })

/-- RELOAD_DELAY (`src/ft/mod.rs` line 30), in seconds. -/
def RELOAD_DELAY : ℚ := 2

/-- The reload check at the top of `load_font` (`src/ft/mod.rs` lines
195-198): `self.creation_timestamp.map_or(true, |ts| ts.elapsed() >
RELOAD_DELAY)`.  Returns (whether `fc::update_config()` runs, the new
`creation_timestamp`). -/
def load_font_reload (creation_timestamp : Option ℚ) (now : ℚ) : Bool × Option ℚ :=
  match creation_timestamp with
  | Option.none => (true, Option.none)
  | some timestamp =>
    if now - timestamp > RELOAD_DELAY then (true, Option.none)
    else (false, some timestamp)

/-- Rasterize::load_font for FreeTypeRasterizer (`src/ft/mod.rs` lines
194-201): run the reload check, then `get_face`.  `now` is the absolute
time of the call; the returned `Bool` reports whether
`fc::update_config()` was invoked (the reload itself only touches global
fontconfig state, which this fixed environment models as unchanged). -/
def load_font {PB : Type} (env : FcEnv PB) (s : FreeTypeRasterizer)
    (desc : FontDesc) (size : Size) (now : ℚ) :
    Bool × Except Error (FontKey × FreeTypeRasterizer) :=
  let reload := load_font_reload s.creation_timestamp now
  let s := { s with creation_timestamp := reload.2 }
  (reload.1, get_face env s desc size)

/-! ## The claim-side description of `face_for_glyph` (C1)

`face_for_glyph_spec` is written from the claim's four-step wording, not
from the source, and is compared against the embedded `face_for_glyph`:
(1) primary face loaded with a nonzero glyph index → primary key, no
walk; (2) character outside the aggregated coverage → primary key;
(3) walk candidates in order: an already-loaded candidate wins with a
nonzero glyph index, a not-yet-loaded one is loaded only after its own
declared coverage contains the character, its key returned on success;
(4) otherwise the primary key.  The claim is silent on a failing load:
as in the source, the walk then yields no candidate and the primary key
is returned. -/

/-- Step (3)/(4) of the claim's wording: the ordered candidate walk,
returning only the chosen key. -/
def face_for_glyph_spec_walk {PB : Type} (env : FcEnv PB) (glyph : GlyphKey)
    (s : FreeTypeRasterizer) : List FallbackFont → FontKey
  | [] => glyph.font_key
  | fallback_font :: rest =>
    match alook s.loader.faces fallback_font.key with
    | some face =>
      if face.ft_face.get_char_index glyph.character ≠ 0 then fallback_font.key
      else face_for_glyph_spec_walk env glyph s rest
    | Option.none =>
      match fallback_font.pattern.charset with
      | some cs =>
        if cs.has_char glyph.character then
          match face_from_pattern env s.loader fallback_font.pattern fallback_font.key with
          | .ok (some key, _) => key
          | .ok (Option.none, _) => face_for_glyph_spec_walk env glyph s rest
          | .error _ => glyph.font_key
        else face_for_glyph_spec_walk env glyph s rest
      | Option.none => face_for_glyph_spec_walk env glyph s rest

/-- The claim's four-step resolution algorithm (C1), as a pure function
of the pre-call state. -/
def face_for_glyph_spec {PB : Type} (env : FcEnv PB) (s : FreeTypeRasterizer)
    (glyph : GlyphKey) : FontKey :=
  let steps234 :=
    match alook s.fallback_lists glyph.font_key with
    | Option.none => glyph.font_key
    | some fallback_list =>
      if !fallback_list.coverage.has_char glyph.character then glyph.font_key
      else face_for_glyph_spec_walk env glyph s fallback_list.list
  match alook s.loader.faces glyph.font_key with
  | some face =>
    if face.ft_face.get_char_index glyph.character ≠ 0 then glyph.font_key
    else steps234
  | Option.none => steps234

/-! ## Concrete instances used to witness and refute claims -/

/-- An environment whose fontconfig always fails to match and whose
FreeType always fails to load: the degenerate external world. -/
def trivialEnv : FcEnv Unit :=
  ⟨(), fun _ _ => (), fun _ _ => (), fun _ _ => (), fun _ _ => (), fun _ _ => (),
    fun _ => 0, fun _ => (), fun _ => (), fun _ => Option.none, fun _ p => p,
    fun _ => .error .platform_error⟩

/-- A rasterizer with empty caches at device scale 1 and the given
creation timestamp. -/
def rasterizerAt (t : Option ℚ) : FreeTypeRasterizer := ⟨⟨[], []⟩, [], 1, t⟩

/-- A sample font request. -/
def sampleDesc : FontDesc := ⟨"monospace", Style.specific "Regular"⟩

/-- A sample size (12 pt as 24 half-points). -/
def sampleSize : Size := ⟨24⟩

/-- A glyph key naming font key 0, which `load_font` never returned on an
empty rasterizer. -/
def sampleGlyphKey : GlyphKey := ⟨'a', ⟨0⟩, sampleSize⟩

/-- A face with no glyphs and no kerning tables. -/
def faceNoGlyphs : FtFace := ⟨fun _ => 0, false, fun _ _ => (0, 0)⟩

/-- A face that has a glyph index for every character, kerning tables,
and a fixed kerning vector of (64, -32) in 26.6 units. -/
def faceAllGlyphs : FtFace := ⟨fun _ => 7, true, fun _ _ => (64, -32)⟩

/-- A face that has a glyph for every character but no kerning tables. -/
def faceAllGlyphsNoKern : FtFace := ⟨fun _ => 3, false, fun _ _ => (0, 0)⟩

/-- A charset containing every character. -/
def charsetAll : CharSet := ⟨fun _ => true⟩

/-- An environment that successfully loads `faceAllGlyphs` at face
location 5 and matches one primary font with no fallbacks. -/
def loadingEnv : FcEnv Unit :=
  ⟨(), fun _ _ => (), fun _ _ => (), fun _ _ => (), fun _ _ => (), fun _ _ => (),
    fun _ => 0, fun _ => (), fun _ => (),
    fun _ => some [⟨0, some 5, some charsetAll⟩], fun _ p => p,
    fun loc => if loc = 5 then .ok faceAllGlyphs else .error .platform_error⟩

/-- A fallback candidate at face location 5 with full declared coverage. -/
def fallbackAt5 : FallbackFont := ⟨⟨99, some 5, some charsetAll⟩, ⟨42⟩⟩

/-- A rasterizer whose primary font key 0 is loaded as `faceNoGlyphs`
with one not-yet-loaded fallback candidate (`fallbackAt5`). -/
def rasterizerWithFallback : FreeTypeRasterizer :=
  ⟨⟨[(⟨0⟩, ⟨faceNoGlyphs⟩)], []⟩, [(⟨0⟩, ⟨[fallbackAt5], charsetAll⟩)], 1, Option.none⟩

/-- A rasterizer whose primary font key 0 is loaded as
`faceAllGlyphsNoKern` with an empty fallback list. -/
def rasterizerNoKern : FreeTypeRasterizer :=
  ⟨⟨[(⟨0⟩, ⟨faceAllGlyphsNoKern⟩)], []⟩, [(⟨0⟩, ⟨[], charsetAll⟩)], 1, Option.none⟩

/-- An Rgb (alpha-mask) glyph. -/
def glyphRgbSample : RasterizedGlyph := ⟨'x', 1, 1, 0, 0, (0, 0), .rgb [7, 7, 7]⟩

/-- A 2x2 Rgba glyph. -/
def glyphRgbaSample : RasterizedGlyph :=
  ⟨'x', 2, 2, 10, -7, (3, 4), .rgba [0, 0, 0, 0, 4, 4, 8, 8, 8, 8, 4, 4, 100, 100, 100, 100]⟩


/-- A 1x10 Mono bitmap spanning two bytes (pitch 2). -/
def monoBitmapW : FtBitmap := ⟨1, 10, 2, .mono, [255, 128]⟩

/-- The normalized buffer of `monoBitmapW`: nine white pixels then one
black pixel, three bytes each. -/
def monoPackedW : List ℕ :=
  [255, 255, 255, 255, 255, 255, 255, 255, 255, 255, 255, 255, 255, 255, 255,
    255, 255, 255, 255, 255, 255, 255, 255, 255, 255, 255, 255, 0, 0, 0]

/-- A 2x6 Lcd bitmap (two pixels per row, three bytes per pixel). -/
def lcdBitmapW : FtBitmap := ⟨2, 6, 6, .lcd, [1, 2, 3, 4, 5, 6, 11, 12, 13, 14, 15, 16]⟩

/-- The normalized buffer of `lcdBitmapW` under Bgr subpixel geometry. -/
def lcdPackedW : List ℕ := [3, 2, 1, 6, 5, 4, 13, 12, 11, 16, 15, 14]

/-- A 6x2 LcdV bitmap (two rows of output pixels, three source rows each). -/
def lcdVBitmapW : FtBitmap := ⟨6, 2, 2, .lcdV, [1, 2, 3, 4, 5, 6, 11, 12, 13, 14, 15, 16]⟩

/-- The rasterizer state produced by a successful `load_font` of
`sampleDesc` at `sampleSize` on an empty rasterizer under `loadingEnv`:
primary key 0 loaded from face location 5, no fallbacks. -/
def s1AfterLoad : FreeTypeRasterizer :=
  ⟨⟨[(⟨0⟩, ⟨faceAllGlyphs⟩)], [(5, faceAllGlyphs)]⟩,
    [(⟨0⟩, ⟨[], ⟨fun _ => false⟩⟩)], 1, Option.none⟩

/-! ## Helper lemmas on lists and rationals -/

theorem alook_alinsert_self {κ α : Type} [DecidableEq κ] (l : List (κ × α)) (k : κ) (v : α) :
    alook (alinsert l k v) k = some v := by
  simp [alook, alinsert]

theorem rat_floor_eq_intFloor (q : ℚ) : q.floor = ⌊q⌋ := by
  rw [Rat.floor_def', Rat.floor_def]

theorem length_flatMap_range' (f : ℕ → List ℕ) (L : ℕ) (hL : ∀ k, (f k).length = L)
    (s n : ℕ) : ((List.range' s n).flatMap f).length = n * L := by
  induction n generalizing s with
  | zero => simp
  | succ n ih =>
    rw [List.range'_succ, List.flatMap_cons, List.length_append, hL, ih, Nat.succ_mul]
    omega

theorem length_flatMap_range (f : ℕ → List ℕ) (L : ℕ) (hL : ∀ k, (f k).length = L)
    (n : ℕ) : ((List.range n).flatMap f).length = n * L := by
  rw [List.range_eq_range']
  exact length_flatMap_range' f L hL 0 n

theorem getD_flatMap_range' (f : ℕ → List ℕ) (L : ℕ) (hL : ∀ k, (f k).length = L)
    (s n i r : ℕ) (hi : i < n) (hr : r < L) (d : ℕ) :
    ((List.range' s n).flatMap f).getD (i * L + r) d = (f (s + i)).getD r d := by
  induction n generalizing s i with
  | zero => omega
  | succ n ih =>
    rw [List.range'_succ, List.flatMap_cons]
    cases i with
    | zero =>
      rw [Nat.zero_mul, Nat.zero_add, List.getD_append _ _ _ _ (by rw [hL]; exact hr),
        Nat.add_zero]
    | succ i =>
      have key : (i + 1) * L + r = L + (i * L + r) := by rw [Nat.succ_mul]; omega
      rw [key, List.getD_append_right _ _ _ _ (by rw [hL]; omega)]
      have key2 : L + (i * L + r) - (f s).length = i * L + r := by rw [hL]; omega
      rw [key2, ih (s + 1) i (by omega)]
      have key3 : s + 1 + i = s + (i + 1) := by omega
      rw [key3]

theorem getD_flatMap_range (f : ℕ → List ℕ) (L : ℕ) (hL : ∀ k, (f k).length = L)
    (n i r : ℕ) (hi : i < n) (hr : r < L) (d : ℕ) :
    ((List.range n).flatMap f).getD (i * L + r) d = (f i).getD r d := by
  rw [List.range_eq_range', getD_flatMap_range' f L hL 0 n i r hi hr d, Nat.zero_add]

theorem getD_lt_of_forall_lt (l : List ℕ) (bound : ℕ) (hb : ∀ b ∈ l, b < bound)
    (hbound : 0 < bound) (n : ℕ) : l.getD n 0 < bound := by
  rcases Nat.lt_or_ge n l.length with h | h
  · rw [List.getD_eq_getElem l 0 h]
    exact hb _ (List.getElem_mem h)
  · rw [List.getD_eq_default l 0 h]
    exact hbound

/-! ## Theorems for the claims -/

/-- C9 (code_bug evidence): the `FontKey::next` token counter is held as
`usize` but truncated into a `u32` token, so the value returned by call
`2^32` equals the value returned by call 0: tokens are not unique over
all call counts, contradicting the claim (and the source's own doc
comment `The generated key will be globally unique`). -/
theorem fontKey_next_token_repeats :
    fontKey_next_token (2 ^ 32) = fontKey_next_token 0 ∧ (2 ^ 32 : ℕ) ≠ 0 := by
  constructor
  · norm_num [fontKey_next_token]
  · positivity

/-- C8 counterexample: with construction at time 0, `load_font` calls at
times 2.5 and 2.6 seconds BOTH invoke `fc::update_config` (the first
call clears `creation_timestamp`, after which the `map_or(true, ...)`
check refreshes on every call), so two refreshes occur within a window
shorter than the 2-second `RELOAD_DELAY`, refuting `over any 2-second
window at most one refresh occurs`. -/
theorem load_font_refreshes_twice_within_delay :
    (load_font trivialEnv (rasterizerAt (some 0)) sampleDesc sampleSize (5 / 2)).1 = true ∧
    (load_font trivialEnv (rasterizerAt ((load_font_reload (some 0) (5 / 2)).2)) sampleDesc
        sampleSize (13 / 5)).1 = true ∧
    (13 / 5 : ℚ) - 5 / 2 < RELOAD_DELAY := by
  refine ⟨?_, ?_, by norm_num [RELOAD_DELAY]⟩ <;>
    norm_num [load_font, load_font_reload, rasterizerAt, RELOAD_DELAY]

/-- C8 amended: `fc::update_config` is never invoked by `load_font`
within `RELOAD_DELAY` (2 seconds) of rasterizer construction; a call
strictly later than that refreshes and clears the timestamp; and once
the timestamp is cleared every subsequent call refreshes.  The check
runs synchronously at the start of `load_font`. -/
theorem load_font_reload_behavior {PB : Type} (env : FcEnv PB) (s : FreeTypeRasterizer)
    (desc : FontDesc) (size : Size) (now t0 : ℚ) :
    (s.creation_timestamp = some t0 → now - t0 ≤ RELOAD_DELAY →
      (load_font env s desc size now).1 = false) ∧
    (s.creation_timestamp = some t0 → RELOAD_DELAY < now - t0 →
      (load_font env s desc size now).1 = true) ∧
    (s.creation_timestamp = Option.none → (load_font env s desc size now).1 = true) := by
  refine ⟨fun h1 h2 => ?_, fun h1 h2 => ?_, fun h1 => ?_⟩ <;>
    simp only [load_font, load_font_reload, h1]
  · rw [if_neg (not_lt.2 h2)]
  · rw [if_pos h2]

/-- Witness for the amended C8 theorem at concrete times: built at 0, a
call at t=1 does not refresh, a call at t=3 does, and any call with the
timestamp cleared does. -/
theorem load_font_reload_behavior_witness :
    (load_font trivialEnv (rasterizerAt (some 0)) sampleDesc sampleSize 1).1 = false ∧
    (load_font trivialEnv (rasterizerAt (some 0)) sampleDesc sampleSize 3).1 = true ∧
    (load_font trivialEnv (rasterizerAt Option.none) sampleDesc sampleSize 7).1 = true :=
  ⟨(load_font_reload_behavior trivialEnv (rasterizerAt (some 0)) sampleDesc sampleSize 1 0).1
      rfl (by norm_num [RELOAD_DELAY]),
    (load_font_reload_behavior trivialEnv (rasterizerAt (some 0)) sampleDesc sampleSize 3 0).2.1
      rfl (by norm_num [RELOAD_DELAY]),
    (load_font_reload_behavior trivialEnv (rasterizerAt Option.none) sampleDesc sampleSize 7
        0).2.2 rfl⟩

/-- C6: `downsample_bitmap` returns the input glyph unchanged for every
Rgb (alpha-mask) glyph, for every factor ≥ 1, and in particular at
factor exactly 1. -/
theorem downsample_bitmap_identity (g : RasterizedGlyph) (f : ℚ) :
    (∀ bytes, g.buffer = .rgb bytes → downsample_bitmap g f = g) ∧
    (1 ≤ f → downsample_bitmap g f = g) ∧
    (f = 1 → downsample_bitmap g f = g) := by
  refine ⟨fun bytes hb => by simp only [downsample_bitmap, hb], fun hf => ?_, fun hf => ?_⟩
  · have hnot : ¬f < 1 := not_lt.2 hf
    rcases hb : g.buffer with bytes | bytes
    · simp only [downsample_bitmap, hb]
    · simp only [downsample_bitmap, hb, hnot, if_false]
  · subst hf
    have hnot : ¬(1 : ℚ) < 1 := lt_irrefl 1
    rcases hb : g.buffer with bytes | bytes
    · simp only [downsample_bitmap, hb]
    · simp only [downsample_bitmap, hb, hnot, if_false]

/-- Witness for C6 at concrete glyphs: an Rgb glyph at factor 1/2 and an
Rgba glyph at factor 1 both come back unchanged. -/
theorem downsample_bitmap_identity_witness :
    downsample_bitmap glyphRgbSample (1 / 2) = glyphRgbSample ∧
    downsample_bitmap glyphRgbaSample 1 = glyphRgbaSample :=
  ⟨(downsample_bitmap_identity glyphRgbSample (1 / 2)).1 _ rfl,
    (downsample_bitmap_identity glyphRgbaSample 1).2.2 rfl⟩

/-- C7 counterexample: `kerning` on a glyph key whose font key was never
returned by `load_font` reaches the
`self.fallback_lists.get(&glyph.font_key).unwrap()` panic inside
`face_for_glyph` (modelled as `none`), refuting `no panic occurs for any
input, including a font key never returned by load_font`. -/
theorem kerning_panics_on_unknown_key :
    kerning trivialEnv (rasterizerAt Option.none) sampleGlyphKey sampleGlyphKey =
      Option.none := rfl
theorem unpack_byte_length (byte : ℕ) : ∀ count bit, (unpack_byte byte count bit).length = 3 * count
  | 0, _ => rfl
  | count + 1, bit => by
    simp only [unpack_byte, List.length_cons, unpack_byte_length byte count (bit - 1)]
    omega

theorem mono_row_length (buf : List ℕ) (offset : ℕ) (columns byteIdx : ℕ) :
    (mono_row buf offset columns byteIdx).length = 3 * columns := by
  induction columns using Nat.strong_induction_on generalizing byteIdx with
  | _ n ih =>
    rw [mono_row]
    split
    · simp [*]
    · rename_i hn
      rw [List.length_append, unpack_byte_length]
      rw [ih (n - min 8 n) (by omega) (byteIdx + 1)]
      omega

theorem unpack_byte_getD (byte count bit k c : ℕ) (hk : k < count) (hc : c < 3)
    (hkb : k ≤ bit) :
    (unpack_byte byte count bit).getD (3 * k + c) 0 = ((byte >>> (bit - k)) &&& 1) * 255 := by
  induction count generalizing bit k with
  | zero => omega
  | succ n ih =>
    simp only [unpack_byte]
    cases k with
    | zero =>
      simp only [Nat.mul_zero, Nat.zero_add, Nat.sub_zero]
      interval_cases c <;>
        simp only [List.getD_cons_zero, List.getD_cons_succ]
    | succ k =>
      have hidx : 3 * (k + 1) + c = 3 * k + c + 1 + 1 + 1 := by omega
      rw [hidx]
      simp only [List.getD_cons_succ]
      rw [ih (bit - 1) k (by omega) (by omega)]
      have hbit : bit - 1 - k = bit - (k + 1) := by omega
      rw [hbit]

theorem mono_row_getD (buf : List ℕ) (offset columns byteIdx j c : ℕ) (hj : j < columns)
    (hc : c < 3) :
    (mono_row buf offset columns byteIdx).getD (3 * j + c) 0 =
      ((buf.getD (offset + byteIdx + j / 8) 0 >>> (7 - j % 8)) &&& 1) * 255 := by
  induction columns using Nat.strong_induction_on generalizing byteIdx j with
  | _ n ih =>
    rw [mono_row]
    split
    · omega
    · rename_i hn
      by_cases hj8 : j < min 8 n
      · rw [List.getD_append _ _ _ _ (by rw [unpack_byte_length]; omega)]
        rw [unpack_byte_getD _ _ _ j c (by omega) hc (by omega)]
        have h1 : j / 8 = 0 := by omega
        have h2 : j % 8 = j := by omega
        rw [h1, h2, Nat.add_zero]
      · have hmin : min 8 n = 8 := by omega
        rw [List.getD_append_right _ _ _ _ (by rw [unpack_byte_length]; omega)]
        rw [unpack_byte_length]
        have hidx : 3 * j + c - 3 * (min 8 n) = 3 * (j - 8) + c := by omega
        rw [hidx]
        rw [ih (n - min 8 n) (by omega) (byteIdx + 1) (j - 8) (by omega)]
        have e1 : offset + (byteIdx + 1) + (j - 8) / 8 = offset + byteIdx + j / 8 := by omega
        have e2 : 7 - (j - 8) % 8 = 7 - j % 8 := by omega
        rw [e1, e2]

theorem getD_map_range' (f : ℕ → ℕ) (s n i d : ℕ) (hi : i < n) :
    ((List.range' s n).map f).getD i d = f (s + i) := by
  induction n generalizing s i with
  | zero => omega
  | succ n ih =>
    rw [List.range'_succ]
    cases i with
    | zero => simp
    | succ i =>
      simp only [List.map_cons, List.getD_cons_succ]
      rw [ih (s + 1) i (by omega)]
      have : s + 1 + i = s + (i + 1) := by omega
      rw [this]

theorem getD_map_range (f : ℕ → ℕ) (n i d : ℕ) (hi : i < n) :
    ((List.range n).map f).getD i d = f i := by
  rw [List.range_eq_range', getD_map_range' f 0 n i d hi, Nat.zero_add]

/-- C3: `normalize_buffer` round-trips the specified synthetic inputs
(1x1 Mono bit 1 -> Rgb 255s, 1x1 Gray 128 -> Rgb 128s, 1x1 Bgra
[10,20,30,255] -> Rgba [30,20,10,255]); in general Mono unpacks each bit
MSB-first to 0 or 255 replicated three times, Gray replicates each byte
three times, and Bgra reorders every 4-byte pixel from B,G,R,A to
R,G,B,A. -/
theorem normalize_buffer_round_trips :
    normalize_buffer ⟨1, 1, 1, .mono, [128]⟩ Rgba.unknown = (1, 1, .rgb [255, 255, 255]) ∧
    normalize_buffer ⟨1, 1, 1, .gray, [128]⟩ Rgba.unknown = (1, 1, .rgb [128, 128, 128]) ∧
    normalize_buffer ⟨1, 1, 1, .bgra, [10, 20, 30, 255]⟩ Rgba.unknown =
      (1, 1, .rgba [30, 20, 10, 255]) ∧
    (∀ (bm : FtBitmap) (rgba : Rgba) (i j c : ℕ) (packed : List ℕ),
      bm.pixel_mode = .mono → i < bm.rows → j < bm.width → c < 3 →
      (normalize_buffer bm rgba).2.2 = .rgb packed →
      packed.getD (3 * (i * bm.width + j) + c) 0 =
        ((bm.buffer.getD (i * bm.pitch + j / 8) 0 >>> (7 - j % 8)) &&& 1) * 255) ∧
    (∀ (bm : FtBitmap) (rgba : Rgba) (i j c : ℕ) (packed : List ℕ),
      bm.pixel_mode = .gray → i < bm.rows → j < bm.width → c < 3 →
      (normalize_buffer bm rgba).2.2 = .rgb packed →
      packed.getD (3 * (i * bm.width + j) + c) 0 = bm.buffer.getD (i * bm.pitch + j) 0) ∧
    (∀ (bm : FtBitmap) (rgba : Rgba) (p : ℕ) (packed : List ℕ),
      bm.pixel_mode = .bgra → p < bm.rows * bm.width →
      (normalize_buffer bm rgba).2.2 = .rgba packed →
      packed.getD (4 * p) 0 = bm.buffer.getD (4 * p + 2) 0 ∧
      packed.getD (4 * p + 1) 0 = bm.buffer.getD (4 * p + 1) 0 ∧
      packed.getD (4 * p + 2) 0 = bm.buffer.getD (4 * p) 0 ∧
      packed.getD (4 * p + 3) 0 = bm.buffer.getD (4 * p + 3) 0) := by
  refine ⟨?_, ?_, ?_, ?_, ?_, ?_⟩
  · simp [normalize_buffer, mono_row, unpack_byte]
    decide
  · rfl
  · rfl
  · intro bm rgba i j c packed hm hi hj hc hpacked
    rcases bm with ⟨rows, width, pitch, pm, buf⟩
    simp only at hm hi hj hpacked ⊢
    subst hm
    simp only [normalize_buffer, BitmapBuffer.rgb.injEq] at hpacked
    subst hpacked
    have hidx : 3 * (i * width + j) + c = i * (3 * width) + (3 * j + c) := by ring
    rw [hidx,
      getD_flatMap_range _ (3 * width) (fun k => mono_row_length buf (k * pitch) width 0)
        rows i (3 * j + c) hi (by omega) 0,
      mono_row_getD buf (i * pitch) width 0 j c hj hc]
    have : i * pitch + 0 + j / 8 = i * pitch + j / 8 := by omega
    rw [this]
  · intro bm rgba i j c packed hm hi hj hc hpacked
    rcases bm with ⟨rows, width, pitch, pm, buf⟩
    simp only at hm hi hj hpacked ⊢
    subst hm
    simp only [normalize_buffer, BitmapBuffer.rgb.injEq] at hpacked
    subst hpacked
    have hidx : 3 * (i * width + j) + c = i * (width * 3) + (j * 3 + c) := by ring
    have hrow : ∀ k : ℕ,
        ((fun m => (List.range' (m * pitch) width).flatMap fun j =>
          [buf.getD j 0, buf.getD j 0, buf.getD j 0]) k).length = width * 3 :=
      fun k => length_flatMap_range'
        (fun j => [buf.getD j 0, buf.getD j 0, buf.getD j 0]) 3 (fun _ => rfl) (k * pitch) width
    rw [hidx, getD_flatMap_range _ (width * 3) hrow rows i (j * 3 + c) hi (by omega) 0,
      getD_flatMap_range' (fun j => [buf.getD j 0, buf.getD j 0, buf.getD j 0]) 3
        (fun _ => rfl) (i * pitch) width j c hj hc 0]
    interval_cases c <;> rfl
  · intro bm rgba p packed hm hp hpacked
    rcases bm with ⟨rows, width, pitch, pm, buf⟩
    simp only at hm hp hpacked ⊢
    subst hm
    simp only [normalize_buffer, BitmapBuffer.rgba.injEq] at hpacked
    subst hpacked
    have hf : ∀ q : ℕ, ((fun p => [buf.getD (4 * p + 2) 0, buf.getD (4 * p + 1) 0,
        buf.getD (4 * p) 0, buf.getD (4 * p + 3) 0]) q).length = 4 := fun _ => rfl
    refine ⟨?_, ?_, ?_, ?_⟩
    · conv_lhs => rw [show 4 * p = p * 4 + 0 by ring]
      rw [getD_flatMap_range _ 4 hf (rows * width) p 0 hp (by omega) 0]
      simp only [List.getD_cons_zero, List.getD_cons_succ]
    · conv_lhs => rw [show 4 * p + 1 = p * 4 + 1 by ring]
      rw [getD_flatMap_range _ 4 hf (rows * width) p 1 hp (by omega) 0]
      simp only [List.getD_cons_zero, List.getD_cons_succ]
    · conv_lhs => rw [show 4 * p + 2 = p * 4 + 2 by ring]
      rw [getD_flatMap_range _ 4 hf (rows * width) p 2 hp (by omega) 0]
      simp only [List.getD_cons_zero, List.getD_cons_succ]
    · conv_lhs => rw [show 4 * p + 3 = p * 4 + 3 by ring]
      rw [getD_flatMap_range _ 4 hf (rows * width) p 3 hp (by omega) 0]
      simp only [List.getD_cons_zero, List.getD_cons_succ]

/-- C4: for Lcd bitmaps `normalize_buffer` reports a pixel width of
encoded width / 3 and copies each 3-byte triad as-is, except that the
first and third bytes (R and B) are swapped when the subpixel geometry
is Bgr; for LcdV bitmaps it reports a pixel height of encoded rows / 3
and assembles each output pixel from 3 vertically stacked rows in
top-to-bottom order, or bottom-to-top when the geometry is Vbgr. -/
theorem normalize_buffer_lcd_lcdv :
    (∀ (bm : FtBitmap) (rgba : Rgba), bm.pixel_mode = .lcd → 3 ∣ bm.width →
      (normalize_buffer bm rgba).1 = bm.rows ∧
      (normalize_buffer bm rgba).2.1 = bm.width / 3 ∧
      (∀ (i t c : ℕ) (packed : List ℕ), i < bm.rows → t < bm.width / 3 → c < 3 →
        (normalize_buffer bm rgba).2.2 = .rgb packed →
        packed.getD (i * bm.width + 3 * t + c) 0 =
          bm.buffer.getD (i * bm.pitch + 3 * t + (if rgba = .bgr then 2 - c else c)) 0)) ∧
    (∀ (bm : FtBitmap) (rgba : Rgba), bm.pixel_mode = .lcdV →
      (normalize_buffer bm rgba).1 = bm.rows / 3 ∧
      (normalize_buffer bm rgba).2.1 = bm.width ∧
      (∀ (i j k : ℕ) (packed : List ℕ), i < bm.rows / 3 → j < bm.width → k < 3 →
        (normalize_buffer bm rgba).2.2 = .rgb packed →
        packed.getD (3 * (i * bm.width + j) + k) 0 =
          bm.buffer.getD ((i * 3 + (if rgba = .vbgr then 2 - k else k)) * bm.pitch + j) 0)) := by
  constructor
  · intro bm rgba hm hdvd
    rcases bm with ⟨rows, width, pitch, pm, buf⟩
    simp only at hm hdvd ⊢
    subst hm
    obtain ⟨m, hm3⟩ := hdvd
    subst hm3
    refine ⟨rfl, rfl, ?_⟩
    intro i t c packed hi ht hc hpacked
    have hdiv : 3 * m / 3 = m := by omega
    rw [hdiv] at ht
    cases rgba
    case bgr =>
      simp only [normalize_buffer, BitmapBuffer.rgb.injEq] at hpacked
      subst hpacked
      have hL : ∀ k : ℕ, ((fun i =>
          (List.range ((3 * m + 2) / 3)).flatMap fun t =>
            [buf.getD (i * pitch + 3 * t + 2) 0, buf.getD (i * pitch + 3 * t + 1) 0,
              buf.getD (i * pitch + 3 * t) 0]) k).length = 3 * m := fun k => by
        rw [length_flatMap_range (fun t => [buf.getD (k * pitch + 3 * t + 2) 0,
          buf.getD (k * pitch + 3 * t + 1) 0, buf.getD (k * pitch + 3 * t) 0]) 3
          (fun _ => rfl)]
        omega
      conv_lhs => rw [show i * (3 * m) + 3 * t + c = i * (3 * m) + (t * 3 + c) by ring]
      rw [getD_flatMap_range _ (3 * m) hL rows i (t * 3 + c) hi (by omega) 0,
        getD_flatMap_range (fun t => [buf.getD (i * pitch + 3 * t + 2) 0,
          buf.getD (i * pitch + 3 * t + 1) 0, buf.getD (i * pitch + 3 * t) 0]) 3
          (fun _ => rfl) ((3 * m + 2) / 3) t c (by omega) hc 0]
      interval_cases c <;> simp
    all_goals (
      simp only [normalize_buffer, BitmapBuffer.rgb.injEq] at hpacked
      subst hpacked
      have hL : ∀ k : ℕ, ((fun i =>
          (List.range' (i * pitch) (3 * m)).map fun j => buf.getD j 0) k).length = 3 * m :=
        fun k => by simp
      conv_lhs => rw [show i * (3 * m) + 3 * t + c = i * (3 * m) + (3 * t + c) by ring]
      rw [getD_flatMap_range _ (3 * m) hL rows i (3 * t + c) hi (by omega) 0,
        getD_map_range' _ (i * pitch) (3 * m) (3 * t + c) 0 (by omega),
        if_neg (by decide),
        show i * pitch + (3 * t + c) = i * pitch + 3 * t + c by ring])
  · intro bm rgba hm
    rcases bm with ⟨rows, width, pitch, pm, buf⟩
    simp only at hm ⊢
    subst hm
    refine ⟨rfl, rfl, ?_⟩
    intro i j k packed hi hj hk hpacked
    cases rgba
    case vbgr =>
      simp only [normalize_buffer, BitmapBuffer.rgb.injEq] at hpacked
      subst hpacked
      have hL : ∀ q : ℕ, ((fun i => (List.range width).flatMap fun j =>
          (List.range 3).map fun k => buf.getD ((i * 3 + (2 - k)) * pitch + j) 0) q).length =
            width * 3 := fun q => by
        rw [length_flatMap_range _ 3 (fun _ => by simp)]
      conv_lhs => rw [show 3 * (i * width + j) + k = i * (width * 3) + (j * 3 + k) by ring]
      rw [getD_flatMap_range _ (width * 3) hL (rows / 3) i (j * 3 + k) hi (by omega) 0,
        getD_flatMap_range (fun j => (List.range 3).map fun k =>
          buf.getD ((i * 3 + (2 - k)) * pitch + j) 0) 3 (fun _ => by simp) width j k hj hk 0,
        getD_map_range _ 3 k 0 hk,
        if_pos rfl]
    all_goals (
      simp only [normalize_buffer, BitmapBuffer.rgb.injEq] at hpacked
      subst hpacked
      have hL : ∀ q : ℕ, ((fun i => (List.range width).flatMap fun j =>
          (List.range 3).map fun k => buf.getD ((i * 3 + k) * pitch + j) 0) q).length =
            width * 3 := fun q => by
        rw [length_flatMap_range _ 3 (fun _ => by simp)]
      conv_lhs => rw [show 3 * (i * width + j) + k = i * (width * 3) + (j * 3 + k) by ring]
      rw [getD_flatMap_range _ (width * 3) hL (rows / 3) i (j * 3 + k) hi (by omega) 0,
        getD_flatMap_range (fun j => (List.range 3).map fun k =>
          buf.getD ((i * 3 + k) * pitch + j) 0) 3 (fun _ => by simp) width j k hj hk 0,
        getD_map_range _ 3 k 0 hk,
        if_neg (by decide)])

/-- C10: the buffer produced by `normalize_buffer` is length-consistent
with the dimensions it returns: an Rgb buffer holds exactly
3 * height * width bytes and an Rgba buffer exactly 4 * height * width
bytes (preconditions: encoded width a multiple of 3 for Lcd, encoded
rows a multiple of 3 for LcdV). -/
theorem normalize_buffer_length_consistent (bm : FtBitmap) (rgba : Rgba)
    (hlcd : bm.pixel_mode = .lcd → 3 ∣ bm.width)
    (hlcdv : bm.pixel_mode = .lcdV → 3 ∣ bm.rows) :
    (∀ packed, (normalize_buffer bm rgba).2.2 = .rgb packed →
      packed.length = 3 * (normalize_buffer bm rgba).1 * (normalize_buffer bm rgba).2.1) ∧
    (∀ packed, (normalize_buffer bm rgba).2.2 = .rgba packed →
      packed.length = 4 * (normalize_buffer bm rgba).1 * (normalize_buffer bm rgba).2.1) := by
  rcases bm with ⟨rows, width, pitch, pm, buf⟩
  simp only at hlcd hlcdv ⊢
  cases pm
  case mono =>
    constructor
    · intro packed hpacked
      simp only [normalize_buffer, BitmapBuffer.rgb.injEq] at hpacked
      subst hpacked
      simp only [normalize_buffer]
      rw [length_flatMap_range _ (3 * width) (fun k => mono_row_length buf (k * pitch) width 0)]
      ring
    · intro packed hpacked
      simp only [normalize_buffer] at hpacked
      exact absurd hpacked (by simp)
  case gray =>
    constructor
    · intro packed hpacked
      simp only [normalize_buffer, BitmapBuffer.rgb.injEq] at hpacked
      subst hpacked
      simp only [normalize_buffer]
      rw [length_flatMap_range _ (width * 3) (fun k => length_flatMap_range'
        (fun j => [buf.getD j 0, buf.getD j 0, buf.getD j 0]) 3 (fun _ => rfl)
        (k * pitch) width)]
      ring
    · intro packed hpacked
      simp only [normalize_buffer] at hpacked
      exact absurd hpacked (by simp)
  case bgra =>
    constructor
    · intro packed hpacked
      simp only [normalize_buffer] at hpacked
      exact absurd hpacked (by simp)
    · intro packed hpacked
      simp only [normalize_buffer, BitmapBuffer.rgba.injEq] at hpacked
      subst hpacked
      simp only [normalize_buffer]
      rw [length_flatMap_range (fun p => [buf.getD (4 * p + 2) 0, buf.getD (4 * p + 1) 0,
        buf.getD (4 * p) 0, buf.getD (4 * p + 3) 0]) 4 (fun _ => rfl)]
      ring
  case lcdV =>
    constructor
    · intro packed hpacked
      simp only [normalize_buffer, BitmapBuffer.rgb.injEq] at hpacked
      cases rgba <;>
        (subst hpacked
         simp only [normalize_buffer]
         rw [length_flatMap_range _ (width * 3)
           (fun q => length_flatMap_range _ 3 (fun _ => by simp) width)]
         ring)
    · intro packed hpacked
      cases rgba <;> (simp only [normalize_buffer] at hpacked; exact absurd hpacked (by simp))
  case lcd =>
    obtain ⟨m, hm3⟩ := hlcd rfl
    subst hm3
    constructor
    · intro packed hpacked
      simp only [normalize_buffer, BitmapBuffer.rgb.injEq] at hpacked
      cases rgba
      case bgr =>
        subst hpacked
        simp only [normalize_buffer]
        rw [length_flatMap_range _ (3 * m) (fun k => by
          rw [length_flatMap_range (fun t => [buf.getD (k * pitch + 3 * t + 2) 0,
            buf.getD (k * pitch + 3 * t + 1) 0, buf.getD (k * pitch + 3 * t) 0]) 3
            (fun _ => rfl)]
          omega)]
        have : 3 * m / 3 = m := by omega
        rw [this]
        ring
      all_goals (
        subst hpacked
        simp only [normalize_buffer]
        rw [length_flatMap_range _ (3 * m) (fun k => by simp)]
        have : 3 * m / 3 = m := by omega
        rw [this]
        ring)
    · intro packed hpacked
      cases rgba <;> (simp only [normalize_buffer] at hpacked; exact absurd hpacked (by simp))

/-- Witness for C3 at a concrete input: the Mono clause evaluated on the
1x10 two-byte bitmap at row 0, column 9, channel 0 (the second byte's
most significant bit is 1, its next bit 0, so pixel 9 is black). -/
theorem normalize_buffer_round_trips_witness :
    monoPackedW.getD (3 * (0 * monoBitmapW.width + 9) + 0) 0 =
      ((monoBitmapW.buffer.getD (0 * monoBitmapW.pitch + 9 / 8) 0 >>> (7 - 9 % 8)) &&& 1) *
        255 :=
  normalize_buffer_round_trips.2.2.2.1 monoBitmapW Rgba.unknown 0 9 0 monoPackedW rfl
    (by decide) (by decide) (by decide)
    (by simp [monoBitmapW, monoPackedW, normalize_buffer, mono_row, unpack_byte]; decide)

/-- Witness for C4 at a concrete input: the Lcd clause on a 2x6 bitmap
under Bgr geometry at row 0, pixel 1, channel 0 reads the source byte at
offset 5 (R/B swapped). -/
theorem normalize_buffer_lcd_lcdv_witness :
    lcdPackedW.getD (0 * lcdBitmapW.width + 3 * 1 + 0) 0 =
      lcdBitmapW.buffer.getD
        (0 * lcdBitmapW.pitch + 3 * 1 + (if Rgba.bgr = Rgba.bgr then 2 - 0 else 0)) 0 :=
  ((normalize_buffer_lcd_lcdv.1 lcdBitmapW Rgba.bgr rfl (by decide)).2.2) 0 1 0 lcdPackedW
    (by decide) (by decide) (by decide) rfl

/-- Witness for C10 at a concrete input: the 2x6 Lcd bitmap under Bgr
geometry yields a 12-byte Rgb buffer, which is 3 * 2 * 2. -/
theorem normalize_buffer_length_consistent_witness :
    lcdPackedW.length =
      3 * (normalize_buffer lcdBitmapW Rgba.bgr).1 * (normalize_buffer lcdBitmapW Rgba.bgr).2.1 :=
  (normalize_buffer_length_consistent lcdBitmapW Rgba.bgr (by decide) (by decide)).1
    lcdPackedW rfl
theorem face_from_pattern_ok_none {PB : Type} (env : FcEnv PB) (loader : FreeTypeLoader)
    (pattern : Pattern) (font_key : FontKey) (loader' : FreeTypeLoader)
    (h : face_from_pattern env loader pattern font_key = .ok (Option.none, loader')) :
    loader' = loader := by
  unfold face_from_pattern at h
  rcases hloc : pattern.ft_face_location with _ | loc
  · rw [hloc] at h
    simp only [] at h
    cases h
    rfl
  · rw [hloc] at h
    simp only [] at h
    split_ifs at h with hh
    · cases h
    · rcases hcache : alook loader.ft_faces loc with _ | f
      · rw [hcache] at h
        simp only [] at h
        rcases henv : env.load_face loc with e | f
        · rw [henv] at h
          simp only [] at h
          cases h
        · rw [henv] at h
          simp only [] at h
          cases h
      · rw [hcache] at h
        simp only [] at h
        cases h

theorem face_from_pattern_ok_some {PB : Type} (env : FcEnv PB) (loader : FreeTypeLoader)
    (pattern : Pattern) (font_key : FontKey) (r : FontKey) (loader' : FreeTypeLoader)
    (h : face_from_pattern env loader pattern font_key = .ok (some r, loader')) :
    r = font_key ∧ (alook loader'.faces font_key).isSome := by
  unfold face_from_pattern at h
  rcases hloc : pattern.ft_face_location with _ | loc
  · rw [hloc] at h
    simp only [] at h
    cases h
  · rw [hloc] at h
    simp only [] at h
    split_ifs at h with hh
    · cases h
      exact ⟨rfl, hh⟩
    · rcases hcache : alook loader.ft_faces loc with _ | f
      · rw [hcache] at h
        simp only [] at h
        rcases henv : env.load_face loc with e | f
        · rw [henv] at h
          simp only [] at h
          cases h
        · rw [henv] at h
          simp only [] at h
          cases h
          exact ⟨rfl, by rw [alook_alinsert_self]; rfl⟩
      · rw [hcache] at h
        simp only [] at h
        cases h
        exact ⟨rfl, by rw [alook_alinsert_self]; rfl⟩

theorem load_face_with_glyph_walk_spec {PB : Type} (env : FcEnv PB) (glyph : GlyphKey) :
    ∀ (l : List FallbackFont) (s : FreeTypeRasterizer),
      ∃ r s', load_face_with_glyph_walk env glyph l s = some (r, s') ∧
        (match r with | .ok k => k | .error _ => glyph.font_key) =
          face_for_glyph_spec_walk env glyph s l := by
  intro l
  induction l with
  | nil => exact fun s => ⟨.ok glyph.font_key, s, rfl, rfl⟩
  | cons fb rest ih =>
    intro s
    simp only [load_face_with_glyph_walk, face_for_glyph_spec_walk]
    rcases hface : alook s.loader.faces fb.key with _ | face
    · rcases hcs : fb.pattern.charset with _ | cs
      · simp only [Bool.not_false, if_true]
        exact ih s
      · by_cases hchar : cs.has_char glyph.character
        · simp only [hchar, Bool.not_true, if_false, if_true]
          rcases hfp : face_from_pattern env s.loader fb.pattern fb.key with e | ⟨ok1, loader'⟩
          · exact ⟨.error e, s, rfl, rfl⟩
          · rcases ok1 with _ | key
            · have hl := face_from_pattern_ok_none env s.loader fb.pattern fb.key loader' hfp
              subst hl
              exact ih s
            · exact ⟨.ok key, { s with loader := loader' }, rfl, rfl⟩
        · simp only [Bool.not_eq_true] at hchar
          simp only [hchar, Bool.not_false, if_true]
          exact ih s
    · by_cases hidx : face.ft_face.get_char_index glyph.character ≠ 0
      · simp only [if_pos hidx]
        exact ⟨.ok fb.key, s, rfl, rfl⟩
      · simp only [if_neg hidx]
        exact ih s

theorem load_face_with_glyph_spec_aux {PB : Type} (env : FcEnv PB) (s : FreeTypeRasterizer)
    (glyph : GlyphKey) (fl : FallbackList)
    (hfl : alook s.fallback_lists glyph.font_key = some fl) :
    ∃ r s', load_face_with_glyph env s glyph = some (r, s') ∧
      (match r with | .ok k => k | .error _ => glyph.font_key) =
        (if !fl.coverage.has_char glyph.character then glyph.font_key
          else face_for_glyph_spec_walk env glyph s fl.list) := by
  simp only [load_face_with_glyph, hfl]
  by_cases hcov : fl.coverage.has_char glyph.character
  · simp only [hcov, Bool.not_true, if_false]
    exact load_face_with_glyph_walk_spec env glyph fl.list s
  · simp only [Bool.not_eq_true] at hcov
    simp only [hcov, Bool.not_false, if_true]
    exact ⟨.ok glyph.font_key, s, rfl, rfl⟩

/-- C1: for every glyph key whose font key has a fallback list (the
state `load_font` establishes), `face_for_glyph` returns exactly the key
described by the claim's four-step algorithm (`face_for_glyph_spec`):
primary face with a glyph index wins without a fallback walk; a
character outside the aggregated coverage set returns the primary key;
otherwise the candidates are walked in order, loading a candidate only
after its own declared coverage contains the character; and the primary
key is returned when no candidate yields a glyph. -/
theorem face_for_glyph_follows_spec {PB : Type} (env : FcEnv PB) (s : FreeTypeRasterizer)
    (glyph_key : GlyphKey) (h : (alook s.fallback_lists glyph_key.font_key).isSome) :
    ∃ s', face_for_glyph env s glyph_key = some (face_for_glyph_spec env s glyph_key, s') := by
  obtain ⟨fl, hfl⟩ := Option.isSome_iff_exists.mp h
  obtain ⟨r, s', hw, hs⟩ := load_face_with_glyph_spec_aux env s glyph_key fl hfl
  rcases hface : alook s.loader.faces glyph_key.font_key with _ | face <;>
    simp only [face_for_glyph, face_for_glyph_spec, hfl, hface]
  · rcases r with e | k
    · exact ⟨s', by rw [hw]; exact congrArg (fun q => some (q, s')) hs⟩
    · exact ⟨s', by rw [hw]; exact congrArg (fun q => some (q, s')) hs⟩
  · by_cases hidx : face.ft_face.get_char_index glyph_key.character ≠ 0
    · rw [if_pos hidx, if_pos hidx]
      exact ⟨s, rfl⟩
    · rw [if_neg hidx, if_neg hidx]
      rcases r with e | k
      · exact ⟨s', by rw [hw]; exact congrArg (fun q => some (q, s')) hs⟩
      · exact ⟨s', by rw [hw]; exact congrArg (fun q => some (q, s')) hs⟩

/-- Witness for C1: the refinement applied to a concrete state whose
primary face (key 0) lacks the glyph and whose single fallback candidate
is loaded lazily (its declared coverage contains the character). -/
theorem face_for_glyph_follows_spec_witness :
    ∃ s', face_for_glyph loadingEnv rasterizerWithFallback sampleGlyphKey =
      some (face_for_glyph_spec loadingEnv rasterizerWithFallback sampleGlyphKey, s') :=
  face_for_glyph_follows_spec loadingEnv rasterizerWithFallback sampleGlyphKey rfl
theorem load_face_with_glyph_walk_faces {PB : Type} (env : FcEnv PB) (glyph : GlyphKey) :
    ∀ (l : List FallbackFont) (s : FreeTypeRasterizer),
      (alook s.loader.faces glyph.font_key).isSome →
      ∃ r s', load_face_with_glyph_walk env glyph l s = some (r, s') ∧
        (alook s'.loader.faces
          (match r with | .ok k => k | .error _ => glyph.font_key)).isSome := by
  intro l
  induction l with
  | nil => exact fun s hs => ⟨.ok glyph.font_key, s, rfl, hs⟩
  | cons fb rest ih =>
    intro s hs
    simp only [load_face_with_glyph_walk]
    rcases hface : alook s.loader.faces fb.key with _ | face
    · rcases hcs : fb.pattern.charset with _ | cs
      · simp only [Bool.not_false, if_true]
        exact ih s hs
      · by_cases hchar : cs.has_char glyph.character
        · simp only [hchar, Bool.not_true, if_false]
          rcases hfp : face_from_pattern env s.loader fb.pattern fb.key with e | ⟨ok1, loader'⟩
          · exact ⟨.error e, s, rfl, hs⟩
          · rcases ok1 with _ | key
            · have hl := face_from_pattern_ok_none env s.loader fb.pattern fb.key loader' hfp
              subst hl
              exact ih s hs
            · obtain ⟨hk, hin⟩ := face_from_pattern_ok_some env s.loader fb.pattern fb.key
                key loader' hfp
              subst hk
              exact ⟨.ok fb.key, { s with loader := loader' }, rfl, hin⟩
        · simp only [Bool.not_eq_true] at hchar
          simp only [hchar, Bool.not_false, if_true]
          exact ih s hs
    · by_cases hidx : face.ft_face.get_char_index glyph.character ≠ 0
      · simp only [if_pos hidx]
        exact ⟨.ok fb.key, s, rfl, by rw [hface]; rfl⟩
      · simp only [if_neg hidx]
        exact ih s hs

theorem face_for_glyph_faces {PB : Type} (env : FcEnv PB) (s : FreeTypeRasterizer)
    (glyph_key : GlyphKey) (hfl : (alook s.fallback_lists glyph_key.font_key).isSome)
    (hface : (alook s.loader.faces glyph_key.font_key).isSome) :
    ∃ key s', face_for_glyph env s glyph_key = some (key, s') ∧
      (alook s'.loader.faces key).isSome := by
  obtain ⟨fl, hfl'⟩ := Option.isSome_iff_exists.mp hfl
  obtain ⟨face, hface'⟩ := Option.isSome_iff_exists.mp hface
  simp only [face_for_glyph, load_face_with_glyph, hfl', hface']
  by_cases hidx : face.ft_face.get_char_index glyph_key.character ≠ 0
  · simp only [if_pos hidx]
    exact ⟨glyph_key.font_key, s, rfl, hface⟩
  · simp only [if_neg hidx]
    by_cases hcov : fl.coverage.has_char glyph_key.character
    · simp only [hcov, Bool.not_true, if_false]
      obtain ⟨r, s', hw, hin⟩ := load_face_with_glyph_walk_faces env glyph_key fl.list s hface
      rw [hw]
      rcases r with e | k
      · exact ⟨glyph_key.font_key, s', rfl, hin⟩
      · exact ⟨k, s', rfl, hin⟩
    · simp only [Bool.not_eq_true] at hcov
      simp only [hcov, Bool.not_false, if_true]
      exact ⟨glyph_key.font_key, s, rfl, hface⟩

/-- C7 amended: for every pair of glyph keys whose left font key was
established by `load_font` (it has a fallback list and a loaded primary
face), `kerning` returns a value — no panic — and that value is (0, 0)
whenever the resolved face lacks kerning tables (`FT_HAS_KERNING`
false); otherwise it is the face's kerning vector converted from 26.6
fixed point.  (As stated, the claim is false for unknown font keys: see
the counterexample, where the source panics.) -/
theorem kerning_total_for_known_keys {PB : Type} (env : FcEnv PB) (s : FreeTypeRasterizer)
    (left right : GlyphKey)
    (hfl : (alook s.fallback_lists left.font_key).isSome)
    (hface : (alook s.loader.faces left.font_key).isSome) :
    ∃ key s' props, face_for_glyph env s left = some (key, s') ∧
      alook s'.loader.faces key = some props ∧
      kerning env s left right = some
        ((if props.ft_face.has_kerning then
            (from_freetype_26_6 (props.ft_face.get_kerning
                (props.ft_face.get_char_index left.character)
                (props.ft_face.get_char_index right.character)).1,
              from_freetype_26_6 (props.ft_face.get_kerning
                (props.ft_face.get_char_index left.character)
                (props.ft_face.get_char_index right.character)).2)
          else (0, 0)), s') := by
  obtain ⟨key, s', hfg, hin⟩ := face_for_glyph_faces env s left hfl hface
  obtain ⟨props, hprops⟩ := Option.isSome_iff_exists.mp hin
  refine ⟨key, s', props, hfg, hprops, ?_⟩
  rcases hk : props.ft_face.has_kerning with _ | _ <;>
    simp [kerning, hfg, hprops, hk]

/-- Witness for the amended C7: a concrete rasterizer whose primary face
has every glyph but no kerning tables; `kerning` returns ((0,0), state). -/
theorem kerning_total_for_known_keys_witness :
    ∃ key s' props,
      face_for_glyph trivialEnv rasterizerNoKern sampleGlyphKey = some (key, s') ∧
      alook s'.loader.faces key = some props ∧
      kerning trivialEnv rasterizerNoKern sampleGlyphKey sampleGlyphKey = some
        ((if props.ft_face.has_kerning then
            (from_freetype_26_6 (props.ft_face.get_kerning
                (props.ft_face.get_char_index sampleGlyphKey.character)
                (props.ft_face.get_char_index sampleGlyphKey.character)).1,
              from_freetype_26_6 (props.ft_face.get_kerning
                (props.ft_face.get_char_index sampleGlyphKey.character)
                (props.ft_face.get_char_index sampleGlyphKey.character)).2)
          else (0, 0)), s') :=
  kerning_total_for_known_keys trivialEnv rasterizerNoKern sampleGlyphKey sampleGlyphKey
    rfl rfl

theorem get_face_idem {PB : Type} (env : FcEnv PB) (s : FreeTypeRasterizer)
    (desc : FontDesc) (size : Size) (k : FontKey) (s' : FreeTypeRasterizer)
    (h : get_face env s desc size = .ok (k, s')) (ts : Option ℚ) :
    get_face env { s' with creation_timestamp := ts } desc size =
      .ok (k, { s' with creation_timestamp := ts }) := by
  simp only [get_face] at h ⊢
  split at h
  · exact absurd h (by simp)
  · split at h
    · exact absurd h (by simp)
    · split at h
      · rename_i fonts primary rest hsort hc
        simp only [Except.ok.injEq, Prod.mk.injEq] at h
        obtain ⟨hk, hs⟩ := h
        subst hk
        subst hs
        rw [hsort]
        simp [hc]
      · rename_i fonts primary rest hsort hc
        split at h
        · exact absurd h (by simp)
        · rename_i loader hloaded
          simp only [Except.ok.injEq, Prod.mk.injEq] at h
          obtain ⟨hk, hs⟩ := h
          subst hk
          subst hs
          rw [hsort]
          simp [alook_alinsert_self]

/-- C5: `load_font` is idempotent.  If one call returns font key `k`
(leaving state `s'`), any later call with the same descriptor, size and
device pixel ratio returns the same `k`: the key is derived
deterministically by `FontKey.from_pattern_hashes` from the request
pattern's hash and the matched candidate's hash, and the first call
cached a fallback list under that very key, so the second call takes the
early cached return. -/
theorem load_font_idempotent {PB : Type} (env : FcEnv PB) (s : FreeTypeRasterizer)
    (desc : FontDesc) (size : Size) (now1 now2 : ℚ) (k : FontKey) (s' : FreeTypeRasterizer)
    (h : (load_font env s desc size now1).2 = .ok (k, s')) :
    ∃ s'', (load_font env s' desc size now2).2 = .ok (k, s'') := by
  unfold load_font at h ⊢
  exact ⟨_, get_face_idem env _ desc size k s' h _⟩

/-- Witness for C5: a concrete first `load_font` on an empty rasterizer
under `loadingEnv` returns key 0 with state `s1AfterLoad` (checked by
`rfl`), so a second call returns key 0 again. -/
theorem load_font_idempotent_witness :
    ∃ s'', (load_font loadingEnv s1AfterLoad sampleDesc sampleSize 5).2 =
      .ok (⟨0⟩, s'') :=
  load_font_idempotent loadingEnv (rasterizerAt Option.none) sampleDesc sampleSize 1 5 ⟨0⟩
    s1AfterLoad rfl

theorem inner_fold_eq (buf : List ℕ) (spi : ℕ) :
    ∀ (m cs : ℕ) (acc : ℕ × ℕ × ℕ × ℕ × ℕ),
    acc.1 < 2 ^ 32 → acc.2.1 < 2 ^ 32 → acc.2.2.1 < 2 ^ 32 → acc.2.2.2.1 < 2 ^ 32 →
    acc.2.2.2.2 < 2 ^ 32 →
    (List.range' cs m).foldl (fun acc2 source_column =>
      let offset := (spi + source_column) * 4
      (⟨(acc2.1 + buf.getD offset 0) % 2 ^ 32, (acc2.2.1 + buf.getD (offset + 1) 0) % 2 ^ 32,
        (acc2.2.2.1 + buf.getD (offset + 2) 0) % 2 ^ 32,
        (acc2.2.2.2.1 + buf.getD (offset + 3) 0) % 2 ^ 32,
        (acc2.2.2.2.2 + 1) % 2 ^ 32⟩ : ℕ × ℕ × ℕ × ℕ × ℕ)) acc =
    ⟨(acc.1 + ((List.range' cs m).map fun sc => buf.getD ((spi + sc) * 4) 0).sum) % 2 ^ 32,
      (acc.2.1 + ((List.range' cs m).map fun sc =>
        buf.getD ((spi + sc) * 4 + 1) 0).sum) % 2 ^ 32,
      (acc.2.2.1 + ((List.range' cs m).map fun sc =>
        buf.getD ((spi + sc) * 4 + 2) 0).sum) % 2 ^ 32,
      (acc.2.2.2.1 + ((List.range' cs m).map fun sc =>
        buf.getD ((spi + sc) * 4 + 3) 0).sum) % 2 ^ 32,
      (acc.2.2.2.2 + m) % 2 ^ 32⟩ := by
  intro m
  induction m with
  | zero =>
    intro cs acc h1 h2 h3 h4 h5
    rcases acc with ⟨a, b, c, d, e⟩
    simp only [List.range'_zero, List.foldl_nil, List.map_nil, List.sum_nil, Nat.add_zero]
    rw [Nat.mod_eq_of_lt h1, Nat.mod_eq_of_lt h2, Nat.mod_eq_of_lt h3, Nat.mod_eq_of_lt h4,
      Nat.mod_eq_of_lt h5]
  | succ m ih =>
    intro cs acc h1 h2 h3 h4 h5
    rcases acc with ⟨a, b, c, d, e⟩
    rw [List.range'_succ]
    simp only [List.foldl_cons, List.map_cons, List.sum_cons]
    rw [ih (cs + 1) _ (Nat.mod_lt _ (by norm_num)) (Nat.mod_lt _ (by norm_num))
      (Nat.mod_lt _ (by norm_num)) (Nat.mod_lt _ (by norm_num)) (Nat.mod_lt _ (by norm_num))]
    simp only [Prod.mk.injEq]
    refine ⟨?_, ?_, ?_, ?_, ?_⟩ <;> rw [Nat.mod_add_mod] <;>
      exact congrArg (fun t => t % 2 ^ 32) (by ring)

theorem source_rect_fold_eq (buf : List ℕ) (w ls le cs ce : ℕ) :
    source_rect_fold buf w ls le cs ce =
      ⟨box_channel_sum buf w ls le cs ce 0 % 2 ^ 32, box_channel_sum buf w ls le cs ce 1 % 2 ^ 32,
        box_channel_sum buf w ls le cs ce 2 % 2 ^ 32, box_channel_sum buf w ls le cs ce 3 % 2 ^ 32,
        (le - ls) * (ce - cs) % 2 ^ 32⟩ := by
  unfold source_rect_fold box_channel_sum
  have main : ∀ (n ls' : ℕ) (acc : ℕ × ℕ × ℕ × ℕ × ℕ),
      acc.1 < 2 ^ 32 → acc.2.1 < 2 ^ 32 → acc.2.2.1 < 2 ^ 32 → acc.2.2.2.1 < 2 ^ 32 →
      acc.2.2.2.2 < 2 ^ 32 →
      (List.range' ls' n).foldl (fun acc source_line =>
        let source_pixel_index := source_line * w
        (List.range' cs (ce - cs)).foldl (fun acc2 source_column =>
          let offset := (source_pixel_index + source_column) * 4
          (⟨(acc2.1 + buf.getD offset 0) % 2 ^ 32,
            (acc2.2.1 + buf.getD (offset + 1) 0) % 2 ^ 32,
            (acc2.2.2.1 + buf.getD (offset + 2) 0) % 2 ^ 32,
            (acc2.2.2.2.1 + buf.getD (offset + 3) 0) % 2 ^ 32,
            (acc2.2.2.2.2 + 1) % 2 ^ 32⟩ : ℕ × ℕ × ℕ × ℕ × ℕ)) acc) acc =
      ⟨(acc.1 + ((List.range' ls' n).map fun sl =>
          (((List.range' cs (ce - cs)).map fun sc =>
            buf.getD ((sl * w + sc) * 4) 0)).sum).sum) % 2 ^ 32,
        (acc.2.1 + ((List.range' ls' n).map fun sl =>
          (((List.range' cs (ce - cs)).map fun sc =>
            buf.getD ((sl * w + sc) * 4 + 1) 0)).sum).sum) % 2 ^ 32,
        (acc.2.2.1 + ((List.range' ls' n).map fun sl =>
          (((List.range' cs (ce - cs)).map fun sc =>
            buf.getD ((sl * w + sc) * 4 + 2) 0)).sum).sum) % 2 ^ 32,
        (acc.2.2.2.1 + ((List.range' ls' n).map fun sl =>
          (((List.range' cs (ce - cs)).map fun sc =>
            buf.getD ((sl * w + sc) * 4 + 3) 0)).sum).sum) % 2 ^ 32,
        (acc.2.2.2.2 + n * (ce - cs)) % 2 ^ 32⟩ := by
    intro n
    induction n with
    | zero =>
      intro ls' acc h1 h2 h3 h4 h5
      rcases acc with ⟨a, b, c, d, e⟩
      simp only [List.range'_zero, List.foldl_nil, List.map_nil, List.sum_nil, Nat.add_zero,
        Nat.zero_mul]
      rw [Nat.mod_eq_of_lt h1, Nat.mod_eq_of_lt h2, Nat.mod_eq_of_lt h3, Nat.mod_eq_of_lt h4,
        Nat.mod_eq_of_lt h5]
    | succ n ih =>
      intro ls' acc h1 h2 h3 h4 h5
      rcases acc with ⟨a, b, c, d, e⟩
      rw [List.range'_succ]
      simp only [List.foldl_cons, List.map_cons, List.sum_cons]
      rw [inner_fold_eq buf (ls' * w) (ce - cs) cs _ h1 h2 h3 h4 h5,
        ih (ls' + 1) _ (Nat.mod_lt _ (by norm_num)) (Nat.mod_lt _ (by norm_num))
          (Nat.mod_lt _ (by norm_num)) (Nat.mod_lt _ (by norm_num))
          (Nat.mod_lt _ (by norm_num))]
      simp only [Prod.mk.injEq]
      refine ⟨?_, ?_, ?_, ?_, ?_⟩ <;> rw [Nat.mod_add_mod] <;>
        exact congrArg (fun t => t % 2 ^ 32) (by ring)
  rw [main (le - ls) ls ⟨0, 0, 0, 0, 0⟩ (by norm_num) (by norm_num) (by norm_num) (by norm_num)
    (by norm_num)]
  simp only [Nat.zero_add]
  simp [Nat.add_zero]

theorem box_channel_sum_le (buf : List ℕ) (w ls le cs ce ch : ℕ)
    (hb : ∀ x ∈ buf, x < 256) :
    box_channel_sum buf w ls le cs ce ch ≤ 255 * ((le - ls) * (ce - cs)) := by
  unfold box_channel_sum
  have inner : ∀ sl : ℕ,
      (((List.range' cs (ce - cs)).map fun sc =>
        buf.getD ((sl * w + sc) * 4 + ch) 0)).sum ≤ (ce - cs) * 255 := by
    intro sl
    have := List.sum_le_card_nsmul
      ((List.range' cs (ce - cs)).map fun sc => buf.getD ((sl * w + sc) * 4 + ch) 0) 255
      (by
        intro x hx
        obtain ⟨sc, _, rfl⟩ := List.mem_map.mp hx
        have := getD_lt_of_forall_lt buf 256 hb (by omega) ((sl * w + sc) * 4 + ch)
        omega)
    simpa using this
  have outer := List.sum_le_card_nsmul
    ((List.range' ls (le - ls)).map fun sl =>
      (((List.range' cs (ce - cs)).map fun sc => buf.getD ((sl * w + sc) * 4 + ch) 0)).sum)
    ((ce - cs) * 255)
    (by
      intro x hx
      obtain ⟨sl, _, rfl⟩ := List.mem_map.mp hx
      exact inner sl)
  simp only [List.length_map, List.length_range'] at outer
  calc box_channel_sum buf w ls le cs ce ch ≤ (le - ls) * ((ce - cs) * 255) := by
        unfold box_channel_sum
        simpa using outer
    _ = 255 * ((le - ls) * (ce - cs)) := by ring

theorem roundUsize_gap (x step : ℚ) (hx : 0 ≤ x) (hstep : 1 ≤ step) :
    roundUsize x + 1 ≤ roundUsize (x + step) := by
  unfold roundUsize rustRound
  rw [if_pos hx, if_pos (by linarith)]
  rw [rat_floor_eq_intFloor, rat_floor_eq_intFloor]
  have h1 : ⌊x + 1 / 2⌋ + 1 ≤ ⌊x + step + 1 / 2⌋ := by
    rw [show (⌊x + 1 / 2⌋ + 1 : ℤ) = ⌊x + 1 / 2 + 1⌋ from (Int.floor_add_one _).symm]
    exact Int.floor_le_floor (by linarith)
  have h0 : (0 : ℤ) ≤ ⌊x + 1 / 2⌋ := Int.floor_nonneg.mpr (by linarith)
  omega

theorem roundUsize_le (q : ℚ) (n : ℕ) (hq : q ≤ (n : ℚ)) : roundUsize q ≤ n := by
  unfold roundUsize rustRound
  split_ifs with h
  · rw [rat_floor_eq_intFloor]
    have : ⌊q + 1 / 2⌋ < (n : ℤ) + 1 := Int.floor_lt.mpr (by push_cast; linarith)
    omega
  · rw [rat_floor_eq_intFloor]
    push_neg at h
    have : (0 : ℤ) ≤ ⌊1 / 2 - q⌋ := Int.floor_nonneg.mpr (by linarith)
    omega

theorem rustTrunc_range (q : ℚ) (hlo : -(2 ^ 31) < q) (hhi : q < 2 ^ 31) :
    -(2 ^ 31) < rustTrunc q ∧ rustTrunc q < 2 ^ 31 := by
  unfold rustTrunc
  split_ifs with h
  · rw [rat_floor_eq_intFloor]
    constructor
    · have : (0 : ℤ) ≤ ⌊q⌋ := Int.floor_nonneg.mpr h
      omega
    · exact_mod_cast Int.floor_lt.mpr (by exact_mod_cast hhi)
  · push_neg at h
    rw [rat_floor_eq_intFloor]
    have h1 : ⌊-q⌋ < 2 ^ 31 := Int.floor_lt.mpr (by push_cast; linarith)
    have h2 : (0 : ℤ) ≤ ⌊-q⌋ := Int.floor_nonneg.mpr (by linarith)
    constructor
    · omega
    · omega

theorem i32OfF64_eq_rustTrunc (q : ℚ) (hlo : -(2 ^ 31) < q) (hhi : q < 2 ^ 31) :
    i32OfF64 q = rustTrunc q := by
  obtain ⟨h1, h2⟩ := rustTrunc_range q hlo hhi
  unfold i32OfF64
  rw [min_eq_right (by omega), max_eq_right (by omega)]

theorem usizeOfI32_toNat (z : ℤ) (h0 : 0 ≤ z) (h31 : z < 2 ^ 31) :
    usizeOfI32 z = z.toNat := by
  unfold usizeOfI32
  rw [Int.emod_eq_of_lt h0 (by omega)]

theorem usizeOfF64_nonneg_eq (q : ℚ) (h : 0 ≤ q) :
    usizeOfF64 q = ⌊q⌋.toNat := by
  unfold usizeOfF64 rustTrunc
  rw [if_pos h, rat_floor_eq_intFloor]

theorem i32OfUsize_small (n : ℕ) (h : n < 2 ^ 31) : i32OfUsize n = (n : ℤ) := by
  unfold i32OfUsize
  rw [Nat.mod_eq_of_lt (by omega)]
  rw [if_pos h]

theorem getD_double_flatMap_pix (a0 a1 a2 a3 : ℕ → ℕ → ℕ) (TH TW i j ch : ℕ)
    (hi : i < TH) (hj : j < TW) (hch : ch < 4) (d : ℕ) :
    ((List.range TH).flatMap fun li => (List.range TW).flatMap fun ci =>
      [a0 li ci, a1 li ci, a2 li ci, a3 li ci]).getD ((i * TW + j) * 4 + ch) d =
    [a0 i j, a1 i j, a2 i j, a3 i j].getD ch d := by
  have hrow : ∀ k, ((fun li => (List.range TW).flatMap fun ci =>
      [a0 li ci, a1 li ci, a2 li ci, a3 li ci]) k).length = TW * 4 :=
    fun k => length_flatMap_range (fun ci => [a0 k ci, a1 k ci, a2 k ci, a3 k ci]) 4
      (fun _ => rfl) TW
  have hidx : (i * TW + j) * 4 + ch = i * (TW * 4) + (j * 4 + ch) := by ring
  rw [hidx, getD_flatMap_range _ (TW * 4) hrow TH i (j * 4 + ch) hi (by omega) d,
    getD_flatMap_range (fun ci => [a0 i ci, a1 i ci, a2 i ci, a3 i ci]) 4
      (fun _ => rfl) TW j ch hj hch d]

/-- C2: for every Rgba glyph and every fixup factor strictly between 0
and 1, `downsample_bitmap` writes, at destination row `i`, column `j`
and channel `ch`, the quotient of the per-channel u32 sum (wrapping
modulo `2^32`, as the source's `u32` accumulators do) over the source
rectangle
`[round(i*step), round((i+1)*step)) x [round(j*step), round((j+1)*step))`
with `step = 1/fixup_factor`, by the u32 pixel count, with truncating
integer division (and the final `as u8` cast); whenever the glyph is
small enough that no per-channel sum can reach `2^32`
(`255 * width * height < 2^32`, which covers every real glyph), this is
exactly the per-channel average of all source pixels in the rectangle.
It also scales `top`/`left` by the factor (with the `as i32`
truncation) and sets `width`/`height` to the downscaled dimensions. -/
theorem downsample_bitmap_box_filter (g : RasterizedGlyph) (f : ℚ) (buf : List ℕ)
    (hbuf : g.buffer = .rgba buf) (hf0 : 0 < f) (hf1 : f < 1)
    (hw0 : 0 ≤ g.width) (hw31 : g.width < 2 ^ 31)
    (hh0 : 0 ≤ g.height) (hh31 : g.height < 2 ^ 31)
    (htop : -(2 ^ 31) ≤ g.top) (htop2 : g.top ≤ 2 ^ 31 - 1)
    (hleft : -(2 ^ 31) ≤ g.left) (hleft2 : g.left ≤ 2 ^ 31 - 1)
    (hlen : buf.length = 4 * g.width.toNat * g.height.toNat)
    (hbytes : ∀ b ∈ buf, b < 256) :
    ∃ buf', (downsample_bitmap g f).buffer = .rgba buf' ∧
      (downsample_bitmap g f).width = ⌊(g.width.toNat : ℚ) * f⌋ ∧
      (downsample_bitmap g f).height = ⌊(g.height.toNat : ℚ) * f⌋ ∧
      (downsample_bitmap g f).top = rustTrunc ((g.top : ℚ) * f) ∧
      (downsample_bitmap g f).left = rustTrunc ((g.left : ℚ) * f) ∧
      (∀ i j ch, i < ⌊(g.height.toNat : ℚ) * f⌋.toNat →
        j < ⌊(g.width.toNat : ℚ) * f⌋.toNat → ch < 4 →
        buf'.getD ((i * ⌊(g.width.toNat : ℚ) * f⌋.toNat + j) * 4 + ch) 0 =
          box_channel_sum buf g.width.toNat
            (roundUsize ((i : ℚ) * (1 / f))) (roundUsize (((i : ℚ) + 1) * (1 / f)))
            (roundUsize ((j : ℚ) * (1 / f))) (roundUsize (((j : ℚ) + 1) * (1 / f))) ch % 2 ^ 32 /
          ((roundUsize (((i : ℚ) + 1) * (1 / f)) - roundUsize ((i : ℚ) * (1 / f))) *
            (roundUsize (((j : ℚ) + 1) * (1 / f)) - roundUsize ((j : ℚ) * (1 / f))) % 2 ^ 32) %
          256) ∧
      (255 * (g.width.toNat * g.height.toNat) < 2 ^ 32 →
        ∀ i j ch, i < ⌊(g.height.toNat : ℚ) * f⌋.toNat →
        j < ⌊(g.width.toNat : ℚ) * f⌋.toNat → ch < 4 →
        buf'.getD ((i * ⌊(g.width.toNat : ℚ) * f⌋.toNat + j) * 4 + ch) 0 =
          box_channel_sum buf g.width.toNat
            (roundUsize ((i : ℚ) * (1 / f))) (roundUsize (((i : ℚ) + 1) * (1 / f)))
            (roundUsize ((j : ℚ) * (1 / f))) (roundUsize (((j : ℚ) + 1) * (1 / f))) ch /
          ((roundUsize (((i : ℚ) + 1) * (1 / f)) - roundUsize ((i : ℚ) * (1 / f))) *
            (roundUsize (((j : ℚ) + 1) * (1 / f)) - roundUsize ((j : ℚ) * (1 / f))))) := by
  have husw : usizeOfI32 g.width = g.width.toNat := usizeOfI32_toNat g.width hw0 hw31
  have hush : usizeOfI32 g.height = g.height.toNat := usizeOfI32_toNat g.height hh0 hh31
  have hwq : (0 : ℚ) ≤ (g.width.toNat : ℚ) * f := by positivity
  have hhq : (0 : ℚ) ≤ (g.height.toNat : ℚ) * f := by positivity
  simp only [downsample_bitmap, hbuf, if_pos hf1, husw, hush,
    usizeOfF64_nonneg_eq _ hwq, usizeOfF64_nonneg_eq _ hhq]
  refine ⟨_, rfl, ?_, ?_, ?_, ?_, ?_, ?_⟩
  · -- width
    have hfl0 : (0 : ℤ) ≤ ⌊(g.width.toNat : ℚ) * f⌋ := Int.floor_nonneg.mpr hwq
    have hfle : ⌊(g.width.toNat : ℚ) * f⌋ ≤ (g.width.toNat : ℤ) := by
      have : ((g.width.toNat : ℚ)) * f ≤ ((g.width.toNat : ℚ)) :=
        mul_le_of_le_one_right (by positivity) (le_of_lt hf1)
      have h2 := Int.floor_le_floor this
      rwa [Int.floor_natCast] at h2
    have hlt : ⌊(g.width.toNat : ℚ) * f⌋.toNat < 2 ^ 31 := by omega
    rw [i32OfUsize_small _ hlt]
    omega
  · -- height
    have hfl0 : (0 : ℤ) ≤ ⌊(g.height.toNat : ℚ) * f⌋ := Int.floor_nonneg.mpr hhq
    have hfle : ⌊(g.height.toNat : ℚ) * f⌋ ≤ (g.height.toNat : ℤ) := by
      have : ((g.height.toNat : ℚ)) * f ≤ ((g.height.toNat : ℚ)) :=
        mul_le_of_le_one_right (by positivity) (le_of_lt hf1)
      have h2 := Int.floor_le_floor this
      rwa [Int.floor_natCast] at h2
    have hlt : ⌊(g.height.toNat : ℚ) * f⌋.toNat < 2 ^ 31 := by omega
    rw [i32OfUsize_small _ hlt]
    omega
  · -- top
    have ht1 : (-(2 ^ 31) : ℚ) ≤ (g.top : ℚ) := by exact_mod_cast htop
    have ht2 : ((g.top : ℚ)) ≤ 2 ^ 31 - 1 := by exact_mod_cast htop2
    apply i32OfF64_eq_rustTrunc
    · nlinarith [mul_nonneg (by linarith : (0 : ℚ) ≤ (g.top : ℚ) + 2 ^ 31) hf0.le]
    · nlinarith [mul_nonneg (by linarith : (0 : ℚ) ≤ 2 ^ 31 - (g.top : ℚ)) hf0.le]
  · -- left
    have hl1 : (-(2 ^ 31) : ℚ) ≤ (g.left : ℚ) := by exact_mod_cast hleft
    have hl2 : ((g.left : ℚ)) ≤ 2 ^ 31 - 1 := by exact_mod_cast hleft2
    apply i32OfF64_eq_rustTrunc
    · nlinarith [mul_nonneg (by linarith : (0 : ℚ) ≤ (g.left : ℚ) + 2 ^ 31) hf0.le]
    · nlinarith [mul_nonneg (by linarith : (0 : ℚ) ≤ 2 ^ 31 - (g.left : ℚ)) hf0.le]
  · -- the per-pixel box filter, with the source's u32 wrapping
    intro i j ch hi hj hch
    rw [getD_double_flatMap_pix _ _ _ _ _ _ i j ch hi hj hch 0]
    simp only [source_rect_fold_eq]
    interval_cases ch <;>
      simp only [List.getD_cons_zero, List.getD_cons_succ]
  · -- no-overflow domain: the wrapping is invisible and the plain average remains
    intro hbound i j ch hi hj hch
    have hstep : (1 : ℚ) ≤ 1 / f := by rw [le_div_iff₀ hf0]; linarith
    have hgL := roundUsize_gap ((i : ℚ) * (1 / f)) (1 / f) (by positivity) hstep
    rw [show (i : ℚ) * (1 / f) + 1 / f = ((i : ℚ) + 1) * (1 / f) by ring] at hgL
    have hgC := roundUsize_gap ((j : ℚ) * (1 / f)) (1 / f) (by positivity) hstep
    rw [show (j : ℚ) * (1 / f) + 1 / f = ((j : ℚ) + 1) * (1 / f) by ring] at hgC
    have hleB : roundUsize (((i : ℚ) + 1) * (1 / f)) ≤ g.height.toNat := by
      apply roundUsize_le
      have hz : (⌊(g.height.toNat : ℚ) * f⌋.toNat : ℤ) = ⌊(g.height.toNat : ℚ) * f⌋ :=
        Int.toNat_of_nonneg (Int.floor_nonneg.mpr hhq)
      have h2 : (i : ℤ) + 1 ≤ ⌊(g.height.toNat : ℚ) * f⌋ := by omega
      have h3 := Int.floor_le ((g.height.toNat : ℚ) * f)
      have h4 : ((i : ℚ) + 1) ≤ (g.height.toNat : ℚ) * f := by
        have h5 : (((i : ℤ) + 1 : ℤ) : ℚ) ≤ ((⌊(g.height.toNat : ℚ) * f⌋ : ℤ) : ℚ) := by
          exact_mod_cast h2
        push_cast at h5
        linarith
      rw [mul_one_div, div_le_iff₀ hf0]
      exact h4
    have hceB : roundUsize (((j : ℚ) + 1) * (1 / f)) ≤ g.width.toNat := by
      apply roundUsize_le
      have hz : (⌊(g.width.toNat : ℚ) * f⌋.toNat : ℤ) = ⌊(g.width.toNat : ℚ) * f⌋ :=
        Int.toNat_of_nonneg (Int.floor_nonneg.mpr hwq)
      have h2 : (j : ℤ) + 1 ≤ ⌊(g.width.toNat : ℚ) * f⌋ := by omega
      have h3 := Int.floor_le ((g.width.toNat : ℚ) * f)
      have h4 : ((j : ℚ) + 1) ≤ (g.width.toNat : ℚ) * f := by
        have h5 : (((j : ℤ) + 1 : ℤ) : ℚ) ≤ ((⌊(g.width.toNat : ℚ) * f⌋ : ℤ) : ℚ) := by
          exact_mod_cast h2
        push_cast at h5
        linarith
      rw [mul_one_div, div_le_iff₀ hf0]
      exact h4
    rw [getD_double_flatMap_pix _ _ _ _ _ _ i j ch hi hj hch 0]
    simp only [source_rect_fold_eq]
    set ls := roundUsize ((i : ℚ) * (1 / f)) with hlsd
    set lE := roundUsize (((i : ℚ) + 1) * (1 / f)) with hled
    set cs := roundUsize ((j : ℚ) * (1 / f)) with hcsd
    set cE := roundUsize (((j : ℚ) + 1) * (1 / f)) with hced
    have hcnt_le : (lE - ls) * (cE - cs) ≤ g.height.toNat * g.width.toNat :=
      Nat.mul_le_mul (by omega) (by omega)
    have hbound2 : 255 * (g.height.toNat * g.width.toNat) < 2 ^ 32 := by
      rw [Nat.mul_comm g.height.toNat g.width.toNat]
      exact hbound
    have hcnt_lt : (lE - ls) * (cE - cs) < 2 ^ 32 := by
      refine Nat.lt_of_le_of_lt (Nat.le_trans hcnt_le ?_) hbound2
      exact Nat.le_mul_of_pos_left (g.height.toNat * g.width.toNat) (by norm_num)
    have hcpos : 0 < (lE - ls) * (cE - cs) := Nat.mul_pos (by omega) (by omega)
    have hbox_le : ∀ chv, box_channel_sum buf g.width.toNat ls lE cs cE chv ≤
        255 * ((lE - ls) * (cE - cs)) :=
      fun chv => box_channel_sum_le buf g.width.toNat ls lE cs cE chv hbytes
    have hbox_lt : ∀ chv, box_channel_sum buf g.width.toNat ls lE cs cE chv < 2 ^ 32 :=
      fun chv => lt_of_le_of_lt (le_trans (hbox_le chv)
        (Nat.mul_le_mul (le_refl 255) hcnt_le)) hbound2
    have hq_lt : ∀ chv, box_channel_sum buf g.width.toNat ls lE cs cE chv /
        ((lE - ls) * (cE - cs)) < 256 :=
      fun chv => (Nat.div_lt_iff_lt_mul hcpos).mpr
        (lt_of_le_of_lt (hbox_le chv) (mul_lt_mul_of_pos_right (by norm_num) hcpos))
    interval_cases ch <;>
      simp only [List.getD_cons_zero, List.getD_cons_succ] <;>
      rw [Nat.mod_eq_of_lt (hbox_lt _), Nat.mod_eq_of_lt hcnt_lt,
        Nat.mod_eq_of_lt (hq_lt _)]

/-- Witness for C2: the 2x2 Rgba sample glyph at factor 1/2; the single
destination pixel is the average of the four source pixels. -/
theorem downsample_bitmap_box_filter_witness :
    ∃ buf', (downsample_bitmap glyphRgbaSample (1 / 2)).buffer = .rgba buf' ∧
      (downsample_bitmap glyphRgbaSample (1 / 2)).width =
        ⌊(glyphRgbaSample.width.toNat : ℚ) * (1 / 2)⌋ ∧
      (downsample_bitmap glyphRgbaSample (1 / 2)).height =
        ⌊(glyphRgbaSample.height.toNat : ℚ) * (1 / 2)⌋ ∧
      (downsample_bitmap glyphRgbaSample (1 / 2)).top =
        rustTrunc ((glyphRgbaSample.top : ℚ) * (1 / 2)) ∧
      (downsample_bitmap glyphRgbaSample (1 / 2)).left =
        rustTrunc ((glyphRgbaSample.left : ℚ) * (1 / 2)) ∧
      (∀ i j ch, i < ⌊(glyphRgbaSample.height.toNat : ℚ) * (1 / 2)⌋.toNat →
        j < ⌊(glyphRgbaSample.width.toNat : ℚ) * (1 / 2)⌋.toNat → ch < 4 →
        buf'.getD ((i * ⌊(glyphRgbaSample.width.toNat : ℚ) * (1 / 2)⌋.toNat + j) * 4 + ch) 0 =
          box_channel_sum [0, 0, 0, 0, 4, 4, 8, 8, 8, 8, 4, 4, 100, 100, 100, 100]
            glyphRgbaSample.width.toNat
            (roundUsize ((i : ℚ) * (1 / (1 / 2)))) (roundUsize (((i : ℚ) + 1) * (1 / (1 / 2))))
            (roundUsize ((j : ℚ) * (1 / (1 / 2)))) (roundUsize (((j : ℚ) + 1) * (1 / (1 / 2))))
            ch % 2 ^ 32 /
          ((roundUsize (((i : ℚ) + 1) * (1 / (1 / 2))) - roundUsize ((i : ℚ) * (1 / (1 / 2)))) *
            (roundUsize (((j : ℚ) + 1) * (1 / (1 / 2))) -
              roundUsize ((j : ℚ) * (1 / (1 / 2)))) % 2 ^ 32) % 256) ∧
      (255 * (glyphRgbaSample.width.toNat * glyphRgbaSample.height.toNat) < 2 ^ 32 →
        ∀ i j ch, i < ⌊(glyphRgbaSample.height.toNat : ℚ) * (1 / 2)⌋.toNat →
        j < ⌊(glyphRgbaSample.width.toNat : ℚ) * (1 / 2)⌋.toNat → ch < 4 →
        buf'.getD ((i * ⌊(glyphRgbaSample.width.toNat : ℚ) * (1 / 2)⌋.toNat + j) * 4 + ch) 0 =
          box_channel_sum [0, 0, 0, 0, 4, 4, 8, 8, 8, 8, 4, 4, 100, 100, 100, 100]
            glyphRgbaSample.width.toNat
            (roundUsize ((i : ℚ) * (1 / (1 / 2)))) (roundUsize (((i : ℚ) + 1) * (1 / (1 / 2))))
            (roundUsize ((j : ℚ) * (1 / (1 / 2)))) (roundUsize (((j : ℚ) + 1) * (1 / (1 / 2))))
            ch /
          ((roundUsize (((i : ℚ) + 1) * (1 / (1 / 2))) - roundUsize ((i : ℚ) * (1 / (1 / 2)))) *
            (roundUsize (((j : ℚ) + 1) * (1 / (1 / 2))) -
              roundUsize ((j : ℚ) * (1 / (1 / 2)))))) :=
  downsample_bitmap_box_filter glyphRgbaSample (1 / 2)
    [0, 0, 0, 0, 4, 4, 8, 8, 8, 8, 4, 4, 100, 100, 100, 100] rfl
    (by norm_num) (by norm_num) (by decide) (by decide) (by decide) (by decide)
    (by decide) (by decide) (by decide) (by decide) rfl (by decide)

end Crossfont
